import Mathlib

/-!
Verification development for the heart-rate metrics storage/query engine
(`core/storage.py`, `core/config.py` of the repository).

The Python code is shallowly embedded:
* timestamps are ISO-8601 strings; `datetime` values are modelled as civil
  date/time fields, and instants as integer epoch day/second/minute counts,
  using the proleptic Gregorian calendar (the calendar implemented by Python
  `datetime` and by chrono, which polars uses);
* the write buffer (`collections.deque(maxlen=...)`) is a list that keeps only
  the most recent `maxlen` elements;
* partition files are a map from file name to an optional list of records
  (`none` = the file does not exist);
* `polars` dataframe operations are modelled as list operations: filters are
  `List.filter`, `sort` is `List.mergeSort`, `group_by(..., maintain_order=True)`
  groups rows by key in order of first key appearance.
-/

namespace HeartRate

/-! ## Civil calendar

Model of the proleptic Gregorian calendar used by Python `datetime` and by
chrono/polars.  `daysFromCivil`/`civilFromDays` convert between a civil date
and the number of days since 1970-01-01 (negative before).  `civilFromDays`
uses the standard divmod cascade (era / century / quadrennium / year), the
same decomposition as CPython's `_ord2ymd`.
-/

structure CivilDate where
  year : Int
  month : Int
  day : Int
deriving DecidableEq

def isLeap (y : Int) : Bool :=
  (y % 4 == 0 && y % 100 != 0) || y % 400 == 0

def daysInMonth (y m : Int) : Int :=
  if m = 2 then (if isLeap y then 29 else 28)
  else if m = 4 ∨ m = 6 ∨ m = 9 ∨ m = 11 then 30
  else 31

def validCivil (c : CivilDate) : Bool :=
  1 ≤ c.month && c.month ≤ 12 && 1 ≤ c.day && c.day ≤ daysInMonth c.year c.month

/-- Days since 1970-01-01 of a civil date (Hinnant's `days_from_civil`,
the standard closed form for the Gregorian calendar). -/
def daysFromCivil (c : CivilDate) : Int :=
  let y := if c.month ≤ 2 then c.year - 1 else c.year
  let era := y / 400
  let yoe := y - era * 400
  let mp := if c.month ≤ 2 then c.month + 9 else c.month - 3
  let doy := (153 * mp + 2) / 5 + c.day - 1
  let doe := yoe * 365 + yoe / 4 - yoe / 100 + doy
  era * 146097 + doe - 719468

/-- Day-of-era `[0, 146096]` of a day number. -/
def doeOf (z : Int) : Int := (z + 719468) % 146097

/-- Era (400-year block) of a day number. -/
def eraOf (z : Int) : Int := (z + 719468) / 146097

/-- Century index `[0,3]` within the era; the last century of an era is one
day longer, hence the clamp. -/
def centOf (doe : Int) : Int := min (doe / 36524) 3

/-- Quadrennium index `[0,24]` within the century; the last quadrennium picks
up the century's irregularity, hence the clamp. -/
def quadOf (dc : Int) : Int := min (dc / 1461) 24

/-- Year index `[0,3]` within the quadrennium; the last year holds the leap
day, hence the clamp. -/
def yrqOf (dq : Int) : Int := min (dq / 365) 3

/-- Civil date of a day number (days since 1970-01-01). -/
def civilFromDays (z : Int) : CivilDate :=
  let doe := doeOf z
  let b := centOf doe
  let dc := doe - 36524 * b
  let q := quadOf dc
  let dq := dc - 1461 * q
  let yq := yrqOf dq
  let doy := dq - 365 * yq
  let yoe := 100 * b + 4 * q + yq
  let mp := (5 * doy + 2) / 153
  let d := doy - (153 * mp + 2) / 5 + 1
  let m := if mp < 10 then mp + 3 else mp - 9
  let y := yoe + eraOf z * 400
  { year := if m ≤ 2 then y + 1 else y, month := m, day := d }

theorem doeOf_range (z : Int) : 0 ≤ doeOf z ∧ doeOf z ≤ 146096 := by
  unfold doeOf; omega

theorem eraOf_doeOf (z : Int) : z + 719468 = eraOf z * 146097 + doeOf z := by
  unfold eraOf doeOf; omega

theorem centOf_spec (doe : Int) (h0 : 0 ≤ doe) (h1 : doe ≤ 146096) :
    0 ≤ centOf doe ∧ centOf doe ≤ 3 ∧
    0 ≤ doe - 36524 * centOf doe ∧
    doe - 36524 * centOf doe ≤ 36524 := by
  unfold centOf; omega

theorem quadOf_spec (dc : Int) (h0 : 0 ≤ dc) (h1 : dc ≤ 36524) :
    0 ≤ quadOf dc ∧ quadOf dc ≤ 24 ∧
    0 ≤ dc - 1461 * quadOf dc ∧
    dc - 1461 * quadOf dc ≤ 1460 := by
  unfold quadOf; omega

theorem yrqOf_spec (dq : Int) (h0 : 0 ≤ dq) (h1 : dq ≤ 1460) :
    0 ≤ yrqOf dq ∧ yrqOf dq ≤ 3 ∧
    0 ≤ dq - 365 * yrqOf dq ∧
    dq - 365 * yrqOf dq ≤ 365 := by
  unfold yrqOf; omega

/-- The day-of-year to (shifted month, day) conversion round-trips. -/
theorem mp_d_of_doy (doy : Int) (h0 : 0 ≤ doy) (h1 : doy ≤ 365) :
    let mp := (5 * doy + 2) / 153
    let d := doy - (153 * mp + 2) / 5 + 1
    0 ≤ mp ∧ mp ≤ 11 ∧ 1 ≤ d ∧ d ≤ 31 ∧
    (153 * mp + 2) / 5 + d - 1 = doy := by
  intro mp d
  have hmp : mp = (5 * doy + 2) / 153 := rfl
  have hd : d = doy - (153 * mp + 2) / 5 + 1 := rfl
  clear_value mp d
  omega

/-- Characterization of the fields of `civilFromDays` in terms of the
year-of-era / day-of-year decomposition. -/
theorem civilFromDays_fields (z : Int) :
    ∃ yoe doy mp,
      0 ≤ yoe ∧ yoe ≤ 399 ∧ 0 ≤ doy ∧ doy ≤ 365 ∧ 0 ≤ mp ∧ mp ≤ 11 ∧
      mp = (5 * doy + 2) / 153 ∧
      365 * yoe + yoe / 4 - yoe / 100 + doy = doeOf z ∧
      (civilFromDays z).month = (if mp < 10 then mp + 3 else mp - 9) ∧
      (civilFromDays z).day = doy - (153 * mp + 2) / 5 + 1 ∧
      (civilFromDays z).year =
        (if (if mp < 10 then mp + 3 else mp - 9) ≤ 2
         then yoe + eraOf z * 400 + 1 else yoe + eraOf z * 400) := by
  obtain ⟨hd0, hd1⟩ := doeOf_range z
  obtain ⟨hb0, hb3, hdc0, hdc1⟩ := centOf_spec (doeOf z) hd0 hd1
  obtain ⟨hq0, hq3, hdq0, hdq1⟩ :=
    quadOf_spec (doeOf z - 36524 * centOf (doeOf z)) hdc0 hdc1
  obtain ⟨hy0, hy3, hdoy0, hdoy1⟩ :=
    yrqOf_spec _ hdq0 hdq1
  set b := centOf (doeOf z) with hbDef
  set q := quadOf (doeOf z - 36524 * b) with hqDef
  set yq := yrqOf (doeOf z - 36524 * b - 1461 * q) with hyqDef
  have h4 : (100 * b + 4 * q + yq) / 4 = 25 * b + q := by omega
  have h100 : (100 * b + 4 * q + yq) / 100 = b := by omega
  refine ⟨100 * b + 4 * q + yq,
    doeOf z - 36524 * b - 1461 * q - 365 * yq,
    _, ?_, ?_, ?_, ?_, ?_, ?_, rfl, ?_, rfl, rfl, rfl⟩ <;> omega

/-- `daysFromCivil` written against an explicit era / year-of-era
decomposition of the (possibly shifted) year. -/
theorem daysFromCivil_formula (c : CivilDate) (era yoe : Int)
    (h0 : 0 ≤ yoe) (h1 : yoe ≤ 399)
    (hy : (if c.month ≤ 2 then c.year - 1 else c.year) = era * 400 + yoe) :
    daysFromCivil c = era * 146097 +
      (yoe * 365 + yoe / 4 - yoe / 100 +
        ((153 * (if c.month ≤ 2 then c.month + 9 else c.month - 3) + 2) / 5 +
          c.day - 1)) - 719468 := by
  simp only [daysFromCivil]
  rw [hy]
  rw [show (era * 400 + yoe) / 400 = era by omega]
  rw [show era * 400 + yoe - era * 400 = yoe by ring]

/-- Converting a day number to a civil date and back is the identity. -/
theorem daysFromCivil_civilFromDays (z : Int) :
    daysFromCivil (civilFromDays z) = z := by
  obtain ⟨yoe, doy, mp, h0, h1, h2, h3, h4, h5, hmp, hdoe, hm, hd, hy⟩ :=
    civilFromDays_fields z
  have hed := eraOf_doeOf z
  obtain ⟨-, -, hd1, hd31, hback⟩ := mp_d_of_doy doy h2 h3
  have hform := daysFromCivil_formula (civilFromDays z) (eraOf z) yoe h0 h1 ?_
  · rw [hform, hm, hd]
    split_ifs <;> omega
  · rw [hm, hy]
    split_ifs <;> omega

/-- The month and day produced by `civilFromDays` are in range. -/
theorem civilFromDays_month_day_range (z : Int) :
    1 ≤ (civilFromDays z).month ∧ (civilFromDays z).month ≤ 12 ∧
    1 ≤ (civilFromDays z).day ∧ (civilFromDays z).day ≤ 31 := by
  obtain ⟨yoe, doy, mp, h0, h1, h2, h3, h4, h5, hmp, hdoe, hm, hd, hy⟩ :=
    civilFromDays_fields z
  obtain ⟨-, -, hd1, hd31, hback⟩ := mp_d_of_doy doy h2 h3
  rw [hm, hd]
  split_ifs <;> omega

/-- The divmod cascade recovers the year-of-era / day-of-year decomposition,
provided day 365 only occurs in long (shifted) years. -/
theorem cascade_recover (yoe doy : Int) (h0 : 0 ≤ yoe) (h1 : yoe ≤ 399)
    (h2 : 0 ≤ doy)
    (h3 : doy ≤ 364 ∨
      (doy = 365 ∧ yoe % 4 = 3 ∧ (yoe % 100 ≠ 99 ∨ yoe = 399))) :
    centOf (yoe * 365 + yoe / 4 - yoe / 100 + doy) = yoe / 100 ∧
    yoe * 365 + yoe / 4 - yoe / 100 + doy - 36524 * (yoe / 100) =
      1461 * (yoe % 100 / 4) + 365 * (yoe % 4) + doy ∧
    quadOf (1461 * (yoe % 100 / 4) + 365 * (yoe % 4) + doy) = yoe % 100 / 4 ∧
    yrqOf (365 * (yoe % 4) + doy) = yoe % 4 := by
  have hg : yoe / 4 = 25 * (yoe / 100) + yoe % 100 / 4 := by omega
  have hq4 : yoe % 100 / 4 * 4 + yoe % 4 = yoe % 100 := by omega
  have hq0 : 0 ≤ yoe % 100 / 4 ∧ yoe % 100 / 4 ≤ 24 := by omega
  have hy4 : 0 ≤ yoe % 4 ∧ yoe % 4 ≤ 3 := by omega
  have hgy : yoe * 365 + yoe / 4 - yoe / 100 =
      36524 * (yoe / 100) + 1461 * (yoe % 100 / 4) + 365 * (yoe % 4) := by
    omega
  refine ⟨?_, by omega, ?_, ?_⟩
  · unfold centOf; omega
  · unfold quadOf; omega
  · unfold yrqOf; omega


/-- `civilFromDays` of a day number given by an explicit
era / year-of-era / day-of-year decomposition. -/
theorem civilFromDays_assemble (z era yoe doy : Int)
    (hz : z + 719468 = era * 146097 + (yoe * 365 + yoe / 4 - yoe / 100 + doy))
    (h0 : 0 ≤ yoe) (h1 : yoe ≤ 399) (h2 : 0 ≤ doy)
    (h3 : doy ≤ 364 ∨
      (doy = 365 ∧ yoe % 4 = 3 ∧ (yoe % 100 ≠ 99 ∨ yoe = 399))) :
    civilFromDays z =
      { year := if (5 * doy + 2) / 153 ≥ 10 then era * 400 + yoe + 1
                else era * 400 + yoe,
        month := if (5 * doy + 2) / 153 < 10 then (5 * doy + 2) / 153 + 3
                 else (5 * doy + 2) / 153 - 9,
        day := doy - (153 * ((5 * doy + 2) / 153) + 2) / 5 + 1 } := by
  have hge : 0 ≤ yoe * 365 + yoe / 4 - yoe / 100 + doy ∧
      yoe * 365 + yoe / 4 - yoe / 100 + doy ≤ 146096 := by omega
  have hdoe : doeOf z = yoe * 365 + yoe / 4 - yoe / 100 + doy := by
    unfold doeOf; omega
  have hera : eraOf z = era := by unfold eraOf; omega
  obtain ⟨hc1, hc2, hc3, hc4⟩ := cascade_recover yoe doy h0 h1 h2 h3
  obtain ⟨hmp0, hmp11, hdd1, hdd31, hback⟩ :=
    mp_d_of_doy doy h2 (by omega)
  simp only [civilFromDays, hdoe, hera, hc1, hc2, hc3]
  rw [show 1461 * (yoe % 100 / 4) + 365 * (yoe % 4) + doy -
      1461 * (yoe % 100 / 4) = 365 * (yoe % 4) + doy by ring]
  rw [hc4]
  rw [show 365 * (yoe % 4) + doy - 365 * (yoe % 4) = doy by ring]
  congr 1
  split_ifs <;> omega

/-- Converting a valid civil date to a day number and back is the identity. -/
theorem civilFromDays_daysFromCivil (c : CivilDate) (h : validCivil c = true) :
    civilFromDays (daysFromCivil c) = c := by
  obtain ⟨y, m, d⟩ := c
  simp only [validCivil, Bool.and_eq_true, decide_eq_true_eq] at h
  obtain ⟨⟨⟨hm1, hm12⟩, hd1⟩, hdm⟩ := h
  have hleapIff : isLeap y = true ↔ ((y % 4 = 0 ∧ y % 100 ≠ 0) ∨ y % 400 = 0) := by
    simp [isLeap, Bool.or_eq_true, Bool.and_eq_true, beq_iff_eq, bne_iff_ne]
  -- numeric bound facts about the day, by month shape
  have hdm2 : (m = 2 → d ≤ 28 + (if (y % 4 = 0 ∧ y % 100 ≠ 0) ∨ y % 400 = 0 then 1 else 0)) ∧
      ((m = 4 ∨ m = 6 ∨ m = 9 ∨ m = 11) → d ≤ 30) ∧ d ≤ 31 := by
    unfold daysInMonth at hdm
    split_ifs at hdm with hmeq2 hlp h30
    · rw [hleapIff] at hlp
      refine ⟨fun _ => ?_, fun hx => by omega, by omega⟩
      simp [hlp]
      omega
    · have hlp2 : ¬ ((y % 4 = 0 ∧ y % 100 ≠ 0) ∨ y % 400 = 0) := by
        rw [← hleapIff]; simp_all
      refine ⟨fun _ => ?_, fun hx => by omega, by omega⟩
      simp [hlp2]
      omega
    · exact ⟨fun hx => by omega, fun _ => hdm, by omega⟩
    · exact ⟨fun hx => by omega, fun hx => by omega, hdm⟩
  obtain ⟨hfeb, h30, h31⟩ := hdm2
  clear hdm
  have hd29 : m = 2 → d ≤ 29 := by
    intro hm; have := hfeb hm; split_ifs at this <;> omega
  -- recovery of the shifted month from the day-of-year
  have hmprec : (5 * ((153 * (if m ≤ 2 then m + 9 else m - 3) + 2) / 5 + d - 1) + 2) / 153
      = (if m ≤ 2 then m + 9 else m - 3) := by
    rcases (show m = 1 ∨ m = 2 ∨ m = 3 ∨ m = 4 ∨ m = 5 ∨ m = 6 ∨ m = 7 ∨ m = 8 ∨
        m = 9 ∨ m = 10 ∨ m = 11 ∨ m = 12 by omega) with
      hm | hm | hm | hm | hm | hm | hm | hm | hm | hm | hm | hm <;> subst hm <;>
      norm_num <;> omega
  set Y : Int := if m ≤ 2 then y - 1 else y with hYdef
  have hyoe0 : 0 ≤ Y % 400 := by omega
  have hyoe399 : Y % 400 ≤ 399 := by omega
  have hform := daysFromCivil_formula ⟨y, m, d⟩ (Y / 400) (Y % 400) hyoe0 hyoe399
    (by simp only [← hYdef]; omega)
  simp only at hform
  rw [hform]
  have hassemble := civilFromDays_assemble
    ((Y / 400) * 146097 +
      (Y % 400 * 365 + Y % 400 / 4 - Y % 400 / 100 +
        ((153 * (if m ≤ 2 then m + 9 else m - 3) + 2) / 5 + d - 1)) - 719468)
    (Y / 400) (Y % 400)
    ((153 * (if m ≤ 2 then m + 9 else m - 3) + 2) / 5 + d - 1)
    (by ring) hyoe0 hyoe399 ?_ ?_
  · rw [hassemble]
    simp only [CivilDate.mk.injEq]
    rw [hmprec]
    refine ⟨?_, ?_, ?_⟩
    · split_ifs <;> omega
    · split_ifs <;> omega
    · split_ifs <;> omega
  · split_ifs <;> omega
  · -- day-of-year upper bound with the long-year side condition
    split_ifs with hm2
    · rcases (show m = 1 ∨ m = 2 by omega) with hm | hm
      · subst hm; norm_num; omega
      · subst hm
        have := hfeb rfl
        norm_num
        split_ifs at this with hsplit
        · rcases (show d ≤ 28 ∨ d = 29 by omega) with hd | hd
          · left; omega
          · right
            refine ⟨by omega, by omega, ?_⟩
            omega
        · left; omega
    · rcases (show m = 3 ∨ m = 4 ∨ m = 5 ∨ m = 6 ∨ m = 7 ∨ m = 8 ∨ m = 9 ∨
          m = 10 ∨ m = 11 ∨ m = 12 by omega) with
        hm | hm | hm | hm | hm | hm | hm | hm | hm | hm <;> subst hm <;>
        norm_num <;> left <;> omega

/-- `daysFromCivil` in fully linearized form. -/
theorem daysFromCivil_linear (c : CivilDate) :
    daysFromCivil c =
      365 * (if c.month ≤ 2 then c.year - 1 else c.year) +
        (if c.month ≤ 2 then c.year - 1 else c.year) / 4 -
        (if c.month ≤ 2 then c.year - 1 else c.year) / 100 +
        (if c.month ≤ 2 then c.year - 1 else c.year) / 400 +
        ((153 * (if c.month ≤ 2 then c.month + 9 else c.month - 3) + 2) / 5 +
          c.day - 1) - 719468 := by
  have hform := daysFromCivil_formula c
    ((if c.month ≤ 2 then c.year - 1 else c.year) / 400)
    ((if c.month ≤ 2 then c.year - 1 else c.year) % 400)
    (by omega) (by omega) (by omega)
  rw [hform]
  omega

/-- The linear year-count function `365 Y + ⌊Y/4⌋ - ⌊Y/100⌋ + ⌊Y/400⌋`. -/
def yearDays (Y : Int) : Int := 365 * Y + Y / 4 - Y / 100 + Y / 400

theorem yearDays_mono (a b : Int) (h : a ≤ b) : yearDays a + 365 * (b - a) ≤ yearDays b := by
  unfold yearDays
  omega

theorem yearDays_step (Y : Int) :
    yearDays (Y + 1) = yearDays Y + 365 +
      (if (Y + 1) % 4 = 0 ∧ ((Y + 1) % 100 ≠ 0 ∨ (Y + 1) % 400 = 0) then 1 else 0) := by
  unfold yearDays
  split_ifs <;> omega



/-- Strict lexicographic order on civil dates. -/
def civilLt (a b : CivilDate) : Prop :=
  a.year < b.year ∨ (a.year = b.year ∧
    (a.month < b.month ∨ (a.month = b.month ∧ a.day < b.day)))

/-- Bounds on the day-of-year of a valid date. -/
theorem doy_bounds (c : CivilDate) (h : validCivil c = true) :
    0 ≤ (153 * (if c.month ≤ 2 then c.month + 9 else c.month - 3) + 2) / 5 +
      c.day - 1 ∧
    (153 * (if c.month ≤ 2 then c.month + 9 else c.month - 3) + 2) / 5 +
      c.day - 1 ≤ 365 ∧
    ((153 * (if c.month ≤ 2 then c.month + 9 else c.month - 3) + 2) / 5 +
        c.day - 1 = 365 →
      c.month = 2 ∧ c.day = 29 ∧
        (c.year % 4 = 0 ∧ (c.year % 100 ≠ 0 ∨ c.year % 400 = 0))) ∧
    (153 * (if c.month ≤ 2 then c.month + 9 else c.month - 3) + 2) / 5 +
      c.day - 1 <
      (153 * ((if c.month ≤ 2 then c.month + 9 else c.month - 3) + 1) + 2) / 5 := by
  obtain ⟨y, m, d⟩ := c
  simp only [validCivil, Bool.and_eq_true, decide_eq_true_eq] at h
  obtain ⟨⟨⟨hm1, hm12⟩, hd1⟩, hdm⟩ := h
  simp only
  have hleapIff : isLeap y = true ↔ ((y % 4 = 0 ∧ y % 100 ≠ 0) ∨ y % 400 = 0) := by
    simp [isLeap, Bool.or_eq_true, Bool.and_eq_true, beq_iff_eq, bne_iff_ne]
  have hdm2 : (m = 2 → d ≤ 28 + (if (y % 4 = 0 ∧ y % 100 ≠ 0) ∨ y % 400 = 0 then 1 else 0)) ∧
      ((m = 4 ∨ m = 6 ∨ m = 9 ∨ m = 11) → d ≤ 30) ∧ d ≤ 31 := by
    unfold daysInMonth at hdm
    split_ifs at hdm with hmeq2 hlp h30
    · rw [hleapIff] at hlp
      refine ⟨fun _ => ?_, fun hx => by omega, by omega⟩
      simp [hlp]; omega
    · have hlp2 : ¬ ((y % 4 = 0 ∧ y % 100 ≠ 0) ∨ y % 400 = 0) := by
        rw [← hleapIff]; simp_all
      refine ⟨fun _ => ?_, fun hx => by omega, by omega⟩
      simp [hlp2]; omega
    · exact ⟨fun hx => by omega, fun _ => hdm, by omega⟩
    · exact ⟨fun hx => by omega, fun hx => by omega, hdm⟩
  obtain ⟨hfeb, h30, h31⟩ := hdm2
  rcases (show m = 1 ∨ m = 2 ∨ m = 3 ∨ m = 4 ∨ m = 5 ∨ m = 6 ∨ m = 7 ∨ m = 8 ∨
      m = 9 ∨ m = 10 ∨ m = 11 ∨ m = 12 by omega) with
    hm | hm | hm | hm | hm | hm | hm | hm | hm | hm | hm | hm <;> subst hm <;>
    norm_num <;> omega

/-- `daysFromCivil` is strictly monotone on valid civil dates. -/
theorem daysFromCivil_strictMono (a b : CivilDate)
    (ha : validCivil a = true) (hb : validCivil b = true)
    (hlt : civilLt a b) : daysFromCivil a < daysFromCivil b := by
  obtain ⟨hA0, hA365, hAlong, hAnext⟩ := doy_bounds a ha
  obtain ⟨hB0, hB365, hBlong, hBnext⟩ := doy_bounds b hb
  have hb1 : 1 ≤ b.day := by
    obtain ⟨yy, mm, dd⟩ := b
    simp only [validCivil, Bool.and_eq_true, decide_eq_true_eq] at hb
    simp only
    omega
  have hmB : 1 ≤ b.month ∧ b.month ≤ 12 := by
    obtain ⟨yy, mm, dd⟩ := b
    simp only [validCivil, Bool.and_eq_true, decide_eq_true_eq] at hb
    simp only
    omega
  have hmA : 1 ≤ a.month ∧ a.month ≤ 12 := by
    obtain ⟨yy, mm, dd⟩ := a
    simp only [validCivil, Bool.and_eq_true, decide_eq_true_eq] at ha
    simp only
    omega
  rw [daysFromCivil_linear a, daysFromCivil_linear b]
  -- reduce to the (shifted year, shifted month, day) lexicographic order
  have hcoord :
      (if a.month ≤ 2 then a.year - 1 else a.year) <
        (if b.month ≤ 2 then b.year - 1 else b.year) ∨
      ((if a.month ≤ 2 then a.year - 1 else a.year) =
        (if b.month ≤ 2 then b.year - 1 else b.year) ∧
       ((if a.month ≤ 2 then a.month + 9 else a.month - 3) <
          (if b.month ≤ 2 then b.month + 9 else b.month - 3) ∨
        ((if a.month ≤ 2 then a.month + 9 else a.month - 3) =
          (if b.month ≤ 2 then b.month + 9 else b.month - 3) ∧
         a.day < b.day))) := by
    unfold civilLt at hlt
    split_ifs <;> omega
  set YA := if a.month ≤ 2 then a.year - 1 else a.year with hYA
  set YB := if b.month ≤ 2 then b.year - 1 else b.year with hYB
  set mpA := if a.month ≤ 2 then a.month + 9 else a.month - 3 with hmpA
  set mpB := if b.month ≤ 2 then b.month + 9 else b.month - 3 with hmpB
  rcases hcoord with hY | ⟨hYeq, hmp | ⟨hmpeq, hday⟩⟩
  · -- different shifted years
    have hstep : 365 * (YA + 1) + (YA + 1) / 4 - (YA + 1) / 100 + (YA + 1) / 400 =
        365 * YA + YA / 4 - YA / 100 + YA / 400 + 365 +
          (if (YA + 1) % 4 = 0 ∧ ((YA + 1) % 100 ≠ 0 ∨ (YA + 1) % 400 = 0)
           then 1 else 0) := by
      split_ifs <;> omega
    have hmono : 365 * (YA + 1) + (YA + 1) / 4 - (YA + 1) / 100 + (YA + 1) / 400 +
        365 * (YB - (YA + 1)) ≤ 365 * YB + YB / 4 - YB / 100 + YB / 400 := by
      omega
    -- if the first date sits on day-of-year 365 it is Feb 29 of a leap year,
    -- and that leap year is exactly YA + 1
    rcases (show (153 * mpA + 2) / 5 + a.day - 1 ≤ 364 ∨
        (153 * mpA + 2) / 5 + a.day - 1 = 365 by omega) with hc | hc
    · split_ifs at hstep <;> omega
    · obtain ⟨hA2, hA29, hAleap⟩ := hAlong hc
      have hYAv : YA = a.year - 1 := by rw [hYA]; simp [hA2]
      split_ifs at hstep with hlp
      · omega
      · exfalso; apply hlp; omega
  · -- same shifted year, different shifted months
    have hmono : (153 * (mpA + 1) + 2) / 5 ≤ (153 * mpB + 2) / 5 := by omega
    omega
  · -- same shifted year and month, different days
    omega

/-! ## Byte-wise string comparison

Python and polars compare strings byte-wise (UTF-8); on the ASCII strings
used here this is code-point lexicographic order, modelled on `List Char`. -/

def strLeCore : List Char → List Char → Bool
  | [], _ => true
  | _ :: _, [] => false
  | a :: as, b :: bs =>
    if a.toNat < b.toNat then true
    else if b.toNat < a.toNat then false
    else strLeCore as bs

/-- Byte-wise `s <= t` on strings, as evaluated by polars string filters. -/
def strLe (s t : String) : Bool := strLeCore s.data t.data

theorem strLeCore_refl (a : List Char) : strLeCore a a = true := by
  induction a with
  | nil => rfl
  | cons x xs ih => simp [strLeCore, ih]

theorem strLeCore_total (a b : List Char) :
    strLeCore a b = true ∨ strLeCore b a = true := by
  induction a generalizing b with
  | nil => left; rfl
  | cons x xs ih =>
    cases b with
    | nil => right; rfl
    | cons y ys =>
      simp only [strLeCore]
      rcases Nat.lt_trichotomy x.toNat y.toNat with h | h | h
      · left; simp [h]
      · have hxy : ¬ x.toNat < y.toNat := by omega
        have hyx : ¬ y.toNat < x.toNat := by omega
        simpa [hxy, hyx] using ih ys
      · right; simp [h]

theorem strLeCore_trans (a b c : List Char)
    (h1 : strLeCore a b = true) (h2 : strLeCore b c = true) :
    strLeCore a c = true := by
  induction a generalizing b c with
  | nil => rfl
  | cons x xs ih =>
    cases b with
    | nil => simp [strLeCore] at h1
    | cons y ys =>
      cases c with
      | nil => simp [strLeCore] at h2
      | cons z zs =>
        simp only [strLeCore] at h1 h2 ⊢
        rcases Nat.lt_trichotomy x.toNat y.toNat with hxy | hxy | hxy
        · rcases Nat.lt_trichotomy y.toNat z.toNat with hyz | hyz | hyz
          · simp [show x.toNat < z.toNat by omega]
          · simp [show x.toNat < z.toNat by omega]
          · rw [if_neg (by omega), if_pos (by omega)] at h2
            simp at h2
        · rw [if_neg (by omega), if_neg (by omega)] at h1
          rcases Nat.lt_trichotomy y.toNat z.toNat with hyz | hyz | hyz
          · simp [show x.toNat < z.toNat by omega]
          · rw [if_neg (by omega), if_neg (by omega)] at h2 ⊢
            exact ih ys zs h1 h2
          · rw [if_neg (by omega), if_pos (by omega)] at h2
            simp at h2
        · rw [if_neg (by omega), if_pos (by omega)] at h1
          simp at h1

/-- Comparing equal-length prefixes: byte-wise order is preserved by `take`. -/
theorem strLeCore_take (a b : List Char) (n : Nat)
    (h : strLeCore a b = true) :
    strLeCore (a.take n) (b.take n) = true := by
  induction a generalizing b n with
  | nil => simp [strLeCore]
  | cons x xs ih =>
    cases b with
    | nil => simp [strLeCore] at h
    | cons y ys =>
      cases n with
      | zero => rfl
      | succ n =>
        simp only [List.take_succ_cons, strLeCore] at h ⊢
        rcases Nat.lt_trichotomy x.toNat y.toNat with hxy | hxy | hxy
        · simp [hxy]
        · rw [if_neg (by omega), if_neg (by omega)] at h ⊢
          exact ih ys n h
        · rw [if_neg (by omega), if_pos (by omega)] at h
          simp at h

/-! ## Decimal digit rendering -/

/-- The ASCII digit character of `n` (intended for `n ≤ 9`). -/
def digitChar (n : Nat) : Char := Char.ofNat (48 + n)

theorem digitChar_toNat (n : Nat) (h : n ≤ 9) : (digitChar n).toNat = 48 + n := by
  interval_cases n <;> decide

theorem digitChar_ne_plus (a : Nat) (h : a ≤ 9) : digitChar a ≠ '+' := by
  interval_cases a <;> decide

theorem digitChar_ne_minus (a : Nat) (h : a ≤ 9) : digitChar a ≠ '-' := by
  interval_cases a <;> decide

theorem digitChar_mod_toNat (k : Nat) :
    (digitChar (k % 10)).toNat = 48 + k % 10 :=
  digitChar_toNat _ (by omega)

/-- Decimal digit rendering with a structural fuel argument (`n` has fewer
than `n + 1` digits, so the fuel never runs out when it starts at `n + 1`). -/
def natDigitsAux : Nat → Nat → List Char
  | 0, _ => []
  | fuel + 1, n =>
    if n < 10 then [digitChar n]
    else natDigitsAux fuel (n / 10) ++ [digitChar (n % 10)]

/-- Decimal digit string of a natural number (no padding). -/
def natDigits (n : Nat) : List Char := natDigitsAux (n + 1) n

/-- Value of a digit string, inverse to the renderers. -/
def digitsVal (l : List Char) : Nat :=
  l.foldl (fun acc c => acc * 10 + (c.toNat - 48)) 0

theorem digitsVal_append (l : List Char) (c : Char) :
    digitsVal (l ++ [c]) = digitsVal l * 10 + (c.toNat - 48) := by
  simp [digitsVal, List.foldl_append]

theorem digitsVal_natDigitsAux (fuel : Nat) :
    ∀ n, n < fuel → digitsVal (natDigitsAux fuel n) = n := by
  induction fuel with
  | zero =>
    intro n h
    omega
  | succ fuel ih =>
    intro n h
    show digitsVal (if n < 10 then [digitChar n]
      else natDigitsAux fuel (n / 10) ++ [digitChar (n % 10)]) = n
    split_ifs with h10
    · simp [digitsVal, digitChar_toNat n (by omega)]
    · rw [digitsVal_append, ih (n / 10) (by omega),
        digitChar_toNat (n % 10) (by omega)]
      omega

theorem digitsVal_natDigits (n : Nat) : digitsVal (natDigits n) = n :=
  digitsVal_natDigitsAux (n + 1) n (by omega)

/-- Four-digit zero-padded rendering (for values in `[0, 9999]`). -/
def pad4 (n : Nat) : List Char :=
  [digitChar (n / 1000 % 10), digitChar (n / 100 % 10),
   digitChar (n / 10 % 10), digitChar (n % 10)]

/-- Two-digit zero-padded rendering (for values in `[0, 99]`). -/
def pad2 (n : Nat) : List Char := [digitChar (n / 10 % 10), digitChar (n % 10)]

theorem digitsVal_pad4 (n : Nat) (h : n ≤ 9999) : digitsVal (pad4 n) = n := by
  simp only [pad4, digitsVal, List.foldl_cons, List.foldl_nil,
    digitChar_mod_toNat]
  omega

/-- The year part of chrono's `%Y`: zero-padded to 4 digits inside
`[0, 9999]`, a `+`/`-` sign with full digits outside that range. -/
def formatYear (y : Int) : List Char :=
  if 0 ≤ y ∧ y ≤ 9999 then pad4 y.toNat
  else if 9999 < y then '+' :: natDigits y.toNat
  else '-' :: (if -9999 ≤ y then pad4 (-y).toNat else natDigits (-y).toNat)

/-- Decoder inverse to `formatYear`. -/
def yearVal (l : List Char) : Int :=
  match l with
  | [] => 0
  | c :: rest =>
    if c = '+' then (digitsVal rest : Int)
    else if c = '-' then -(digitsVal rest : Int)
    else (digitsVal l : Int)

theorem yearVal_cons (c : Char) (rest : List Char) :
    yearVal (c :: rest) =
      (if c = '+' then (digitsVal rest : Int)
       else if c = '-' then -(digitsVal rest : Int)
       else (digitsVal (c :: rest) : Int)) := rfl

theorem yearVal_formatYear (y : Int) : yearVal (formatYear y) = y := by
  unfold formatYear
  split_ifs with h1 h2 h3
  · show yearVal (digitChar _ :: _) = y
    rw [yearVal_cons,
      if_neg (digitChar_ne_plus _ (by omega)),
      if_neg (digitChar_ne_minus _ (by omega)),
      show (digitChar (y.toNat / 1000 % 10) ::
        [digitChar (y.toNat / 100 % 10), digitChar (y.toNat / 10 % 10),
          digitChar (y.toNat % 10)] : List Char) = pad4 y.toNat from rfl,
      digitsVal_pad4 y.toNat (by omega)]
    omega
  · rw [yearVal_cons, if_pos rfl, digitsVal_natDigits]
    omega
  · rw [yearVal_cons, if_neg (by decide), if_pos rfl,
      digitsVal_pad4 (-y).toNat (by omega)]
    omega
  · rw [yearVal_cons, if_neg (by decide), if_pos rfl, digitsVal_natDigits]
    omega

theorem formatYear_inj (a b : Int) (h : formatYear a = formatYear b) : a = b := by
  have ha := yearVal_formatYear a
  have hb := yearVal_formatYear b
  rw [h] at ha
  omega

/-! ## Timestamp formatting (chrono `%Y-%m-%dT%H:%M:%SZ` after 1-minute
truncation, as produced by the polars query pipeline) -/

/-- The fixed-width `-MM-DDTHH:MM:00Z` tail of a formatted minute. -/
def minuteTail (mo d h mi : Int) : List Char :=
  '-' :: pad2 mo.toNat ++ '-' :: pad2 d.toNat ++ 'T' :: pad2 h.toNat ++
    ':' :: pad2 mi.toNat ++ [':', '0', '0', 'Z']

/-- chrono rendering of an epoch minute as `%Y-%m-%dT%H:%M:%SZ` (seconds are
zero after `truncate("1m")`). -/
def formatMinute (m : Int) : String :=
  ⟨formatYear (civilFromDays (m / 1440)).year ++
    minuteTail (civilFromDays (m / 1440)).month (civilFromDays (m / 1440)).day
      (m % 1440 / 60) (m % 1440 % 60)⟩

theorem minuteTail_length (mo d h mi : Int) : (minuteTail mo d h mi).length = 16 := by
  simp [minuteTail, pad2]

/-- Decoder for the 16-character tail. -/
def tailVal (l : List Char) : Option (Int × Int × Int × Int) :=
  match l with
  | [c1, m1, m2, c2, d1, d2, c3, h1, h2, c4, n1, n2, c5, z1, z2, c6] =>
    if c1 = '-' ∧ c2 = '-' ∧ c3 = 'T' ∧ c4 = ':' ∧ c5 = ':' ∧
        z1 = '0' ∧ z2 = '0' ∧ c6 = 'Z' then
      some ((10 * (m1.toNat - 48) + (m2.toNat - 48) : Int),
        (10 * (d1.toNat - 48) + (d2.toNat - 48) : Int),
        (10 * (h1.toNat - 48) + (h2.toNat - 48) : Int),
        (10 * (n1.toNat - 48) + (n2.toNat - 48) : Int))
    else none
  | _ => none

theorem tailVal_minuteTail (mo d h mi : Int)
    (hmo : 0 ≤ mo ∧ mo ≤ 99) (hd : 0 ≤ d ∧ d ≤ 99)
    (hh : 0 ≤ h ∧ h ≤ 99) (hmi : 0 ≤ mi ∧ mi ≤ 99) :
    tailVal (minuteTail mo d h mi) = some (mo, d, h, mi) := by
  show tailVal ['-', digitChar (mo.toNat / 10 % 10), digitChar (mo.toNat % 10),
    '-', digitChar (d.toNat / 10 % 10), digitChar (d.toNat % 10),
    'T', digitChar (h.toNat / 10 % 10), digitChar (h.toNat % 10),
    ':', digitChar (mi.toNat / 10 % 10), digitChar (mi.toNat % 10),
    ':', '0', '0', 'Z'] = _
  simp only [tailVal]
  rw [if_pos (by simp)]
  simp only [digitChar_mod_toNat]
  simp only [Option.some.injEq, Prod.mk.injEq]
  omega

/-- Full decoder for a formatted minute string, inverse to `formatMinute`. -/
def minuteVal (l : List Char) : Option Int :=
  match tailVal (l.drop (l.length - 16)) with
  | none => none
  | some (mo, d, h, mi) =>
    some (daysFromCivil
        { year := yearVal (l.take (l.length - 16)), month := mo, day := d } * 1440 +
      h * 60 + mi)

theorem minuteVal_formatMinute (m : Int) :
    minuteVal (formatMinute m).data = some m := by
  obtain ⟨hmo1, hmo12, hd1, hd31⟩ := civilFromDays_month_day_range (m / 1440)
  have hlen : (formatMinute m).data.length =
      (formatYear (civilFromDays (m / 1440)).year).length + 16 := by
    simp [formatMinute, minuteTail_length]
  unfold minuteVal
  have hdrop : (formatMinute m).data.drop ((formatMinute m).data.length - 16) =
      minuteTail (civilFromDays (m / 1440)).month (civilFromDays (m / 1440)).day
        (m % 1440 / 60) (m % 1440 % 60) := by
    rw [hlen]
    show List.drop _ (_ ++ _) = _
    rw [show (formatYear (civilFromDays (m / 1440)).year).length + 16 - 16 =
      (formatYear (civilFromDays (m / 1440)).year).length from by omega]
    exact List.drop_left _ _
  have htake : (formatMinute m).data.take ((formatMinute m).data.length - 16) =
      formatYear (civilFromDays (m / 1440)).year := by
    rw [hlen]
    show List.take _ (_ ++ _) = _
    rw [show (formatYear (civilFromDays (m / 1440)).year).length + 16 - 16 =
      (formatYear (civilFromDays (m / 1440)).year).length from by omega]
    exact List.take_left _ _
  rw [hdrop, htake,
    tailVal_minuteTail _ _ _ _ (by omega) (by omega) (by omega) (by omega),
    yearVal_formatYear]
  dsimp only
  have heta : (CivilDate.mk (civilFromDays (m / 1440)).year
      (civilFromDays (m / 1440)).month (civilFromDays (m / 1440)).day) =
      civilFromDays (m / 1440) := rfl
  rw [heta, daysFromCivil_civilFromDays]
  simp only [Option.some.injEq]
  omega

/-- `formatMinute` is injective: distinct minute buckets always render to
distinct timestamp strings. -/
theorem formatMinute_inj (a b : Int) (h : formatMinute a = formatMinute b) :
    a = b := by
  have ha := minuteVal_formatMinute a
  have hb := minuteVal_formatMinute b
  rw [h] at ha
  rw [ha] at hb
  exact Option.some.inj hb

/-! ## Python-side date rendering (`strftime("%Y-%m-%d")` / `date.isoformat()`) -/

/-- The `YYYY-MM-DD` rendering of a civil date. -/
def dateChars (c : CivilDate) : List Char :=
  pad4 c.year.toNat ++ '-' :: (pad2 c.month.toNat ++ '-' :: pad2 c.day.toNat)

theorem strLeCore_digit_cons (x y : Nat) (hx : x ≤ 9) (hy : y ≤ 9)
    (as bs : List Char) :
    strLeCore (digitChar x :: as) (digitChar y :: bs) =
      (if x < y then true else if y < x then false else strLeCore as bs) := by
  simp only [strLeCore, digitChar_toNat x hx, digitChar_toNat y hy]
  rcases Nat.lt_trichotomy x y with h | h | h
  · rw [if_pos (by omega), if_pos h]
  · rw [if_neg (by omega), if_neg (by omega), if_neg (by omega),
      if_neg (by omega)]
  · rw [if_neg (by omega), if_pos (by omega), if_neg (by omega),
      if_pos (by omega)]

theorem strLeCore_same_cons (c : Char) (as bs : List Char) :
    strLeCore (c :: as) (c :: bs) = strLeCore as bs := by
  simp [strLeCore]

theorem strLeCore_pad4_append (x y : Nat) (hx : x ≤ 9999) (hy : y ≤ 9999)
    (as bs : List Char) :
    strLeCore (pad4 x ++ as) (pad4 y ++ bs) =
      (if x < y then true else if y < x then false else strLeCore as bs) := by
  simp only [pad4, List.cons_append, List.nil_append]
  rw [strLeCore_digit_cons (x / 1000 % 10) (y / 1000 % 10) (by omega) (by omega),
    strLeCore_digit_cons (x / 100 % 10) (y / 100 % 10) (by omega) (by omega),
    strLeCore_digit_cons (x / 10 % 10) (y / 10 % 10) (by omega) (by omega),
    strLeCore_digit_cons (x % 10) (y % 10) (by omega) (by omega)]
  split_ifs <;> first | rfl | omega

theorem strLeCore_pad2_append (x y : Nat) (hx : x ≤ 99) (hy : y ≤ 99)
    (as bs : List Char) :
    strLeCore (pad2 x ++ as) (pad2 y ++ bs) =
      (if x < y then true else if y < x then false else strLeCore as bs) := by
  simp only [pad2, List.cons_append, List.nil_append]
  rw [strLeCore_digit_cons (x / 10 % 10) (y / 10 % 10) (by omega) (by omega),
    strLeCore_digit_cons (x % 10) (y % 10) (by omega) (by omega)]
  split_ifs <;> first | rfl | omega

theorem strLeCore_pad2 (x y : Nat) (hx : x ≤ 99) (hy : y ≤ 99) :
    strLeCore (pad2 x) (pad2 y) =
      (if x < y then true else if y < x then false else true) := by
  rw [← List.append_nil (pad2 x), ← List.append_nil (pad2 y),
    strLeCore_pad2_append x y hx hy [] []]
  split_ifs <;> rfl

/-- Byte-wise order on `YYYY-MM-DD` strings implies calendar order. -/
theorem dateChars_le_civil (a b : CivilDate)
    (ha : 0 ≤ a.year ∧ a.year ≤ 9999 ∧ 0 ≤ a.month ∧ a.month ≤ 99 ∧
      0 ≤ a.day ∧ a.day ≤ 99)
    (hb : 0 ≤ b.year ∧ b.year ≤ 9999 ∧ 0 ≤ b.month ∧ b.month ≤ 99 ∧
      0 ≤ b.day ∧ b.day ≤ 99)
    (h : strLeCore (dateChars a) (dateChars b) = true) :
    civilLt a b ∨ a = b := by
  obtain ⟨ay, am, ad⟩ := a
  obtain ⟨by_, bm, bd⟩ := b
  simp only at ha hb
  unfold dateChars at h
  simp only at h
  rw [strLeCore_pad4_append _ _ (by omega) (by omega),
    strLeCore_same_cons,
    strLeCore_pad2_append _ _ (by omega) (by omega),
    strLeCore_same_cons,
    strLeCore_pad2 _ _ (by omega) (by omega)] at h
  unfold civilLt
  simp only [CivilDate.mk.injEq]
  split_ifs at h with h1 h2 h3 h4 h5 h6
  · left; left; omega
  · left; right
    constructor
    · omega
    · left; omega
  · left; right
    constructor
    · omega
    · right
      constructor
      · omega
      · omega
  · right
    refine ⟨by omega, by omega, by omega⟩

/-- Shape check for `YYYY-MM-DDTHH:MM:SSZ` with seconds `00`. -/
def isMinuteShape (s : String) : Bool :=
  match s.data with
  | [y1, y2, y3, y4, c1, m1, m2, c2, d1, d2, t, h1, h2, c3, n1, n2, c4, s1, s2, z] =>
    (48 ≤ y1.toNat && y1.toNat ≤ 57) && (48 ≤ y2.toNat && y2.toNat ≤ 57) &&
    (48 ≤ y3.toNat && y3.toNat ≤ 57) && (48 ≤ y4.toNat && y4.toNat ≤ 57) &&
    (c1 = '-') &&
    (48 ≤ m1.toNat && m1.toNat ≤ 57) && (48 ≤ m2.toNat && m2.toNat ≤ 57) &&
    (c2 = '-') &&
    (48 ≤ d1.toNat && d1.toNat ≤ 57) && (48 ≤ d2.toNat && d2.toNat ≤ 57) &&
    (t = 'T') &&
    (48 ≤ h1.toNat && h1.toNat ≤ 57) && (48 ≤ h2.toNat && h2.toNat ≤ 57) &&
    (c3 = ':') &&
    (48 ≤ n1.toNat && n1.toNat ≤ 57) && (48 ≤ n2.toNat && n2.toNat ≤ 57) &&
    (c4 = ':') && (s1 = '0') && (s2 = '0') && (z = 'Z')
  | _ => false

/-- Inside years 0–9999 the formatted minute has the documented shape. -/
theorem isMinuteShape_formatMinute (m : Int)
    (hy : 0 ≤ (civilFromDays (m / 1440)).year ∧
      (civilFromDays (m / 1440)).year ≤ 9999) :
    isMinuteShape (formatMinute m) = true := by
  have hfy : formatYear (civilFromDays (m / 1440)).year =
      pad4 (civilFromDays (m / 1440)).year.toNat := by
    unfold formatYear
    rw [if_pos (by omega)]
  unfold formatMinute
  rw [hfy]
  show isMinuteShape ⟨_⟩ = true
  simp only [isMinuteShape, pad4, pad2, minuteTail, List.cons_append,
    List.nil_append]
  simp only [digitChar_mod_toNat]
  simp only [Bool.and_eq_true, decide_eq_true_eq]
  repeat' apply And.intro
  all_goals first | trivial | omega

/-! ## Timestamp parsing

`parseIso` models `datetime.fromisoformat` (CPython 3.11 semantics) on the
grammar used by this system: `YYYY-MM-DD`, optionally followed by a single
separator character, `HH[:MM[:SS[.digits]]]`, and an optional `±HH:MM`
offset.  Fields are range-checked like CPython (year 1–9999, valid calendar
day, hour ≤ 23, minute/second ≤ 59, offset hours ≤ 23).
`parseIsoTz` models chrono/polars `strptime` with format
`%Y-%m-%dT%H:%M:%S%z` (offset required, colon optional, no fraction). -/

/-- Wall-clock datetime as parsed by `datetime.fromisoformat`:
civil date, time of day, and optional UTC offset in minutes. -/
structure PyDateTime where
  date : CivilDate
  hour : Int
  minute : Int
  second : Int
  offset : Option Int
deriving DecidableEq

def digitValC (c : Char) : Option Nat :=
  if 48 ≤ c.toNat ∧ c.toNat ≤ 57 then some (c.toNat - 48) else none

def parse2 : List Char → Option (Nat × List Char)
  | c1 :: c2 :: rest =>
    match digitValC c1, digitValC c2 with
    | some a, some b => some (10 * a + b, rest)
    | _, _ => none
  | _ => none

def parseDate : List Char → Option (CivilDate × List Char)
  | y1 :: y2 :: y3 :: y4 :: dash1 :: rest1 =>
    if dash1 = '-' then
      match digitValC y1, digitValC y2, digitValC y3, digitValC y4 with
      | some a, some b, some c, some d =>
        (match parse2 rest1 with
        | some (mo, rest1b) =>
          match rest1b with
          | dash2 :: rest2 =>
            if dash2 = '-' then
              match parse2 rest2 with
              | some (dd, rest3) =>
                let cd : CivilDate :=
                  ⟨(1000 * a + 100 * b + 10 * c + d : Nat), (mo : Nat), (dd : Nat)⟩
                if 1 ≤ cd.year ∧ validCivil cd = true then some (cd, rest3)
                else none
              | none => none
            else none
          | [] => none
        | none => none)
      | _, _, _, _ => none
    else none
  | _ => none

/-- Consume a (possibly empty) run of digits. -/
def skipDigits : List Char → List Char
  | [] => []
  | c :: cs => if (digitValC c).isSome then skipDigits cs else c :: cs

/-- Optional fractional-seconds part: `.` followed by at least one digit. -/
def parseFrac : List Char → Option (List Char)
  | '.' :: rest =>
    match rest with
    | c :: cs => if (digitValC c).isSome then some (skipDigits (c :: cs)) else none
    | [] => none
  | l => some l

/-- Optional `±HH:MM` offset, which must end the string. -/
def parseOffset : List Char → Option (Option Int)
  | [] => some none
  | s :: rest =>
    if s = '+' ∨ s = '-' then
      match parse2 rest with
      | some (hh, ':' :: rest2) =>
        match parse2 rest2 with
        | some (mm, []) =>
          if hh ≤ 23 ∧ mm ≤ 59 then
            some (some (if s = '+' then (hh * 60 + mm : Int) else -(hh * 60 + mm : Int)))
          else none
        | _ => none
      | _ => none
    else none

/-- `HH[:MM[:SS[.fraction]]][offset]`, which must end the string. -/
def parseTime (cs : List Char) : Option (Int × Int × Int × Option Int) :=
  match parse2 cs with
  | some (hh, rest1) =>
    if hh ≤ 23 then
      match rest1 with
      | ':' :: rest2 =>
        (match parse2 rest2 with
        | some (mm, rest3) =>
          if mm ≤ 59 then
            match rest3 with
            | ':' :: rest4 =>
              (match parse2 rest4 with
              | some (ss, rest5) =>
                if ss ≤ 59 then
                  match parseFrac rest5 with
                  | some rest6 =>
                    match parseOffset rest6 with
                    | some off => some ((hh : Nat), (mm : Nat), (ss : Nat), off)
                    | none => none
                  | none => none
                else none
              | none => none)
            | rest4 =>
              match parseOffset rest4 with
              | some off => some ((hh : Nat), (mm : Nat), 0, off)
              | none => none
          else none
        | none => none)
      | rest2 =>
        match parseOffset rest2 with
        | some off => some ((hh : Nat), 0, 0, off)
        | none => none
    else none
  | none => none

/-- `datetime.fromisoformat` on the modelled grammar. -/
def parseIso (s : String) : Option PyDateTime :=
  match parseDate s.data with
  | none => none
  | some (cd, rest) =>
    match rest with
    | [] => some ⟨cd, 0, 0, 0, none⟩
    | _ :: rest2 =>
      match parseTime rest2 with
      | some (h, mi, ss, off) => some ⟨cd, h, mi, ss, off⟩
      | none => none

/-- A mandatory `±HH:MM` / `±HHMM` offset ending the string (chrono `%z`). -/
def parseTzOffset : List Char → Option Int
  | s :: rest =>
    if s = '+' ∨ s = '-' then
      match parse2 rest with
      | some (hh, rest2) =>
        match parse2 (match rest2 with | ':' :: r => r | r => r) with
        | some (mm, []) =>
          if hh ≤ 23 ∧ mm ≤ 59 then
            some (if s = '+' then (hh * 60 + mm : Int) else -(hh * 60 + mm : Int))
          else none
        | _ => none
      | none => none
    else none
  | [] => none

/-- chrono/polars `strptime` with format `%Y-%m-%dT%H:%M:%S%z`. -/
def parseIsoTz (s : String) : Option (CivilDate × Int × Int × Int × Int) :=
  match parseDate s.data with
  | some (cd, 'T' :: rest) =>
    (match parse2 rest with
    | some (hh, ':' :: rest2) =>
      (match parse2 rest2 with
      | some (mm, ':' :: rest3) =>
        (match parse2 rest3 with
        | some (ss, rest4) =>
          if hh ≤ 23 ∧ mm ≤ 59 ∧ ss ≤ 59 then
            match parseTzOffset rest4 with
            | some off => some (cd, hh, mm, ss, off)
            | none => none
          else none
        | none => none)
      | _ => none)
    | _ => none)
  | _ => none

/-- UTC epoch seconds of an offset-aware timestamp. -/
def utcSeconds (cd : CivilDate) (h mi ss off : Int) : Int :=
  daysFromCivil cd * 86400 + h * 3600 + mi * 60 + ss - off * 60

/-- The UTC minute bucket (`strptime` + `dt.truncate("1m")`) of a timestamp
string, as computed by the polars query pipeline. -/
def bucketMinute (s : String) : Option Int :=
  match parseIsoTz s with
  | some (cd, h, mi, ss, off) => some (utcSeconds cd h mi ss off / 60)
  | none => none

/-- `datetime.fromisoformat(...).strftime("%Y-%m-%d")`: the wall-clock date
string of a parsed timestamp (used for partition routing). -/
def pyDateStr (dt : PyDateTime) : String := ⟨dateChars dt.date⟩

/-- Python `str.replace("Z", "+00:00")` (every occurrence). -/
def zAllCore : List Char → List Char
  | [] => []
  | c :: cs =>
    if c = 'Z' then '+' :: '0' :: '0' :: ':' :: '0' :: '0' :: zAllCore cs
    else c :: zAllCore cs

def zReplaceAll (s : String) : String := ⟨zAllCore s.data⟩

/-- polars `str.replace("Z", "+00:00")` (first occurrence only). -/
def zFirstCore : List Char → List Char
  | [] => []
  | c :: cs =>
    if c = 'Z' then '+' :: '0' :: '0' :: ':' :: '0' :: '0' :: cs
    else c :: zFirstCore cs

def zReplaceFirst (s : String) : String := ⟨zFirstCore s.data⟩

/-! ## Storage engine (`core/storage.py`, configuration from `core/config.py`) -/

/-- A buffered/persisted row: the record dict built by `ingest_metric` /
`ingest_batch` and stored in the parquet partitions. -/
structure Record where
  device_id : String
  user_id : String
  timestamp : String
  heart_rate : Int
  date : String
deriving DecidableEq

/-- `BATCH_SIZE` from `core/config.py`. -/
def BATCH_SIZE : Nat := 100

/-- `DEVICE_PRIORITIES` from `core/config.py` (lower number = higher priority). -/
def DEVICE_PRIORITIES : List (String × Int) := [("device_a", 1), ("device_b", 2)]

/-- The priority attached to a row by the left join with the priority map,
with nulls (unknown devices) filled with 999. -/
def priorityOf (dev : String) : Int :=
  ((DEVICE_PRIORITIES.lookup dev).getD 999)

/-- `f"{PARQUET_FILE_PREFIX}_{date_str}.parquet"`. -/
def partitionFile (date : String) : String :=
  "heart_rate_metrics_" ++ date ++ ".parquet"

/-- Storage state: the in-memory write buffer (a `deque(maxlen=BATCH_SIZE*2)`)
and the on-disk partition files (`none` = the file does not exist). -/
structure StoreState where
  buffer : List Record
  files : String → Option (List Record)

/-- `deque.append` on a deque with `maxlen = cap`: when full, the oldest
element is silently evicted from the left. -/
def dequeAppend (cap : Nat) (l : List Record) (x : Record) : List Record :=
  if l.length + 1 ≤ cap then l ++ [x] else (l ++ [x]).drop (l.length + 1 - cap)

/-- `deque.extend` (element-wise `append`) on a deque with `maxlen = cap`. -/
def dequeExtend (cap : Nat) (l : List Record) (xs : List Record) : List Record :=
  xs.foldl (dequeAppend cap) l

/-- `DataStorage._flush_buffer_unlocked`: group the buffered records by date
(insertion order preserved inside each group), then for each date read the
existing partition file, concatenate, and write the file back in place; the
buffer is emptied. -/
def flushBuffer (s : StoreState) : StoreState :=
  { buffer := [],
    files := fun k =>
      let grp := s.buffer.filter (fun r => partitionFile r.date == k)
      if grp.isEmpty then s.files k
      else
        match s.files k with
        | some ex => some (ex ++ grp)
        | none => some grp }

/-- The error raised out of the storage layer (an uncaught Python exception). -/
inductive StorageError
  | invalidTimestamp
  | strptime
deriving DecidableEq

/-- `DataStorage.ingest_metric`: parse the timestamp (raising on failure
before any state is touched), append the record to the buffer, and flush
synchronously when the buffer holds at least `BATCH_SIZE` records. -/
def ingestMetric (device_id user_id timestamp : String) (heart_rate : Int)
    (s : StoreState) : Except StorageError StoreState :=
  match parseIso (zReplaceAll timestamp) with
  | none => .error .invalidTimestamp
  | some dt =>
    let record : Record := ⟨device_id, user_id, timestamp, heart_rate, pyDateStr dt⟩
    let buf := dequeAppend (BATCH_SIZE * 2) s.buffer record
    if BATCH_SIZE ≤ buf.length then .ok (flushBuffer ⟨buf, s.files⟩)
    else .ok ⟨buf, s.files⟩

/-- A raw batch entry (`Dict[str, Any]`): a missing key models the
`KeyError` branch of the per-row `try`. -/
structure RawReading where
  device_id : Option String
  user_id : Option String
  timestamp : Option String
  heart_rate : Option Int
deriving DecidableEq

/-- The record built from one batch entry; `none` when the row raises
`ValueError` (unparseable timestamp) or `KeyError` (missing field) and is
counted as rejected. -/
def buildRecord (r : RawReading) : Option Record :=
  match r.timestamp with
  | none => none
  | some ts =>
    match parseIso (zReplaceAll ts) with
    | none => none
    | some dt =>
      match r.device_id, r.user_id, r.heart_rate with
      | some dev, some usr, some hr => some ⟨dev, usr, ts, hr, pyDateStr dt⟩
      | _, _, _ => none

/-- The per-reading loop of `ingest_batch`: accumulates the accepted and
rejected counters and the list of built records. -/
def ingestLoop : List RawReading → Nat → Nat → List Record →
    Nat × Nat × List Record
  | [], acc, rej, recs => (acc, rej, recs)
  | r :: rest, acc, rej, recs =>
    match buildRecord r with
    | some rec => ingestLoop rest (acc + 1) rej (recs ++ [rec])
    | none => ingestLoop rest acc (rej + 1) recs

/-- `DataStorage.ingest_batch`: build records row by row (absorbing row-level
failures into the rejected count), extend the buffer with them, and flush
synchronously when the buffer holds at least `BATCH_SIZE` records.  Returns
`(accepted, rejected)` and the new state; no exception escapes. -/
def ingestBatch (readings : List RawReading) (s : StoreState) :
    (Nat × Nat) × StoreState :=
  match ingestLoop readings 0 0 [] with
  | (accepted, rejected, records) =>
    if records.isEmpty then ((accepted, rejected), s)
    else
      let buf := dequeExtend (BATCH_SIZE * 2) s.buffer records
      ((accepted, rejected),
        if BATCH_SIZE ≤ buf.length then flushBuffer ⟨buf, s.files⟩
        else ⟨buf, s.files⟩)

/-- `DataStorage.flush` / `_flush_buffer`. -/
def flush (s : StoreState) : StoreState := flushBuffer s

/-! ## Query engine (`DataStorage.query_metrics`) -/

/-- One aggregated output row of `query_metrics`. -/
structure OutRow where
  heart_rate : ℚ
  device_id : String
  timestamp : String
deriving DecidableEq

/-- `DataStorage._get_files_in_range`: the partition files of the calendar
dates from `start.date()` to `end.date()` inclusive that actually exist.
Python `date` objects are modelled by their day numbers; `+ timedelta(days=1)`
is `+ 1` on day numbers. -/
def filesInRange (sd ed : CivilDate) (files : String → Option (List Record)) :
    List String :=
  ((List.range (daysFromCivil ed + 1 - daysFromCivil sd).toNat).map
    (fun i : Nat =>
      partitionFile ⟨dateChars (civilFromDays (daysFromCivil sd + (i : Int)))⟩)).filter
    (fun k => (files k).isSome)

/-- First-occurrence deduplication of a key list. -/
def uniqKeys {κ : Type} [DecidableEq κ] : List κ → List κ
  | [] => []
  | k :: ks => k :: (uniqKeys ks).filter (fun x => x ≠ k)

/-- polars `group_by(keys, maintain_order=True)`: one group per distinct key
in order of first appearance, each group keeping the frame's row order. -/
def groupBy {α κ : Type} [DecidableEq κ] (key : α → κ) (l : List α) :
    List (κ × List α) :=
  (uniqKeys (l.map key)).map (fun k => (k, l.filter (fun x => key x = k)))

/-- The sort key of `sort(["minute_bucket", "priority"])` on a row that
carries its minute bucket. -/
def rowLe (a b : Record × Int) : Bool :=
  if a.2 < b.2 then true
  else if b.2 < a.2 then false
  else priorityOf a.1.device_id ≤ priorityOf b.1.device_id

/-- Mean of the integer heart-rate column (`polars mean`), as an exact
rational: sum divided by count. -/
def listMean (l : List Int) : ℚ := Rat.divInt l.sum (l.length : Int)

/-- `f64.round` of `q * 100` (half away from zero, as used by polars
`round`), computed on the reduced numerator and denominator: for `q ≥ 0`
this is `⌊100 q + 1/2⌋ = (200 num + den) / (2 den)` (`Int` division by a
positive denominator is the floor), mirrored for `q < 0`. -/
def roundTo2 (q : ℚ) : Int :=
  if 0 ≤ q.num then (200 * q.num + (q.den : Int)) / (2 * (q.den : Int))
  else -((200 * (-q.num) + (q.den : Int)) / (2 * (q.den : Int)))

/-- polars `round(2)`: the rounded value is an integer number of
hundredths. -/
def round2 (q : ℚ) : ℚ := mkRat (roundTo2 q) 100

/-- Attach the strptime-parsed minute bucket to every row; `none` models the
`ComputeError` that strict `strptime` raises on any unparseable value. -/
def attachBuckets : List Record → Option (List (Record × Int))
  | [] => some []
  | r :: rs =>
    match bucketMinute (zReplaceFirst r.timestamp), attachBuckets rs with
    | some m, some rest => some ((r, m) :: rest)
    | _, _ => none

/-- The `if device_id:` filter of `query_metrics`: Python truthiness, so
`None` and the empty string leave the frame unfiltered. -/
def devFilter (device_id : Option String) (rows1 : List Record) : List Record :=
  match device_id with
  | some dev => if dev = "" then rows1 else rows1.filter (fun r => r.device_id == dev)
  | none => rows1

/-- The filter stage of `query_metrics`: rows of the partitions in the date
range, filtered by exact `user_id` match, by `device_id` when a non-empty
filter is given (`if device_id:` is Python truthiness), and by the raw
byte-wise string comparison `start <= timestamp <= end`. -/
def queryCandidates (user_id startS endS : String) (device_id : Option String)
    (files : String → Option (List Record)) : List Record :=
  match parseIso (zReplaceAll startS), parseIso (zReplaceAll endS) with
  | some sdt, some edt =>
    let rows := ((filesInRange sdt.date edt.date files).map
      (fun k => (files k).getD [])).flatten
    let rows1 := rows.filter (fun r => r.user_id == user_id)
    let rows2 := devFilter device_id rows1
    rows2.filter (fun r => strLe startS r.timestamp && strLe r.timestamp endS)
  | _, _ => []

/-- `rowLe` as a sorting relation. -/
def rowLeP (a b : Record × Int) : Prop := rowLe a b = true

instance : DecidableRel rowLeP := fun a b =>
  inferInstanceAs (Decidable (rowLe a b = true))

/-- The output timestamp order as a sorting relation. -/
def outLeP (a b : OutRow) : Prop := strLe a.timestamp b.timestamp = true

instance : DecidableRel outLeP := fun a b =>
  inferInstanceAs (Decidable (strLe a.timestamp b.timestamp = true))

/-- The aggregation tail of `query_metrics`: sort by (bucket, priority),
keep the first row per `(minute_bucket, user_id)` group, aggregate per
bucket (mean of the surviving rows, first device), format the bucket, and
sort the output by the formatted timestamp.  Sorting is modelled by the
stable `List.insertionSort`. -/
def aggregatePipeline (withB : List (Record × Int)) : List OutRow :=
  let sorted := List.insertionSort rowLeP withB
  let firsts := (groupBy (fun rb => (rb.2, rb.1.user_id)) sorted).filterMap
    (fun kg => kg.2.head?)
  let outs := (groupBy (fun rb => rb.2) firsts).filterMap
    (fun kg => kg.2.head?.map (fun h =>
      ({ heart_rate :=
           round2 (listMean (kg.2.map (fun rb => rb.1.heart_rate))),
         device_id := h.1.device_id,
         timestamp := formatMinute kg.1 } : OutRow)))
  List.insertionSort outLeP outs

/-- `DataStorage.query_metrics`. -/
def queryMetrics (user_id startS endS : String) (device_id : Option String)
    (files : String → Option (List Record)) : Except StorageError (List OutRow) :=
  match parseIso (zReplaceAll startS), parseIso (zReplaceAll endS) with
  | some sdt, some edt =>
    if (filesInRange sdt.date edt.date files).isEmpty then .ok []
    else
      let rows3 := queryCandidates user_id startS endS device_id files
      if rows3.isEmpty then .ok []
      else
        match attachBuckets rows3 with
        | none => .error .strptime
        | some withB => .ok (aggregatePipeline withB)
  | _, _ => .error .invalidTimestamp

/-! ## Facts about the query pipeline building blocks -/

theorem mem_uniqKeys {κ : Type} [DecidableEq κ] (l : List κ) (x : κ) :
    x ∈ uniqKeys l ↔ x ∈ l := by
  induction l with
  | nil => simp [uniqKeys]
  | cons k ks ih =>
    simp only [uniqKeys, List.mem_cons, List.mem_filter]
    constructor
    · rintro (h | ⟨h, -⟩)
      · exact Or.inl h
      · exact Or.inr (ih.mp h)
    · rintro (h | h)
      · exact Or.inl h
      · by_cases hx : x = k
        · exact Or.inl hx
        · exact Or.inr ⟨ih.mpr h, by simpa using hx⟩

theorem uniqKeys_nodup {κ : Type} [DecidableEq κ] (l : List κ) :
    (uniqKeys l).Nodup := by
  induction l with
  | nil => simp [uniqKeys]
  | cons k ks ih =>
    simp only [uniqKeys]
    refine List.Nodup.cons ?_ (ih.filter _)
    intro hmem
    simp only [List.mem_filter, decide_eq_true_eq] at hmem
    exact hmem.2 rfl

theorem groupBy_map_fst {α κ : Type} [DecidableEq κ] (key : α → κ) (l : List α) :
    (groupBy key l).map Prod.fst = uniqKeys (l.map key) := by
  unfold groupBy
  rw [List.map_map]
  exact List.map_id _

theorem groupBy_mem {α κ : Type} [DecidableEq κ] (key : α → κ) (l : List α)
    (k : κ) (g : List α) (h : (k, g) ∈ groupBy key l) :
    g = l.filter (fun x => key x = k) ∧ k ∈ l.map key := by
  simp only [groupBy, List.mem_map] at h
  obtain ⟨k2, hk2, heq⟩ := h
  obtain ⟨rfl, rfl⟩ := Prod.mk.injEq .. ▸ And.intro (congrArg Prod.fst heq).symm
    (congrArg Prod.snd heq).symm
  exact ⟨(congrArg Prod.snd heq).symm, (mem_uniqKeys _ _).mp hk2⟩

theorem groupBy_group_eq {α κ : Type} [DecidableEq κ] (key : α → κ) (l : List α)
    (k : κ) (g : List α) (h : (k, g) ∈ groupBy key l) :
    g = l.filter (fun x => key x = k) := by
  simp only [groupBy, List.mem_map] at h
  obtain ⟨k2, hk2, heq⟩ := h
  have h1 : k2 = k := congrArg Prod.fst heq
  have h2 := congrArg Prod.snd heq
  simp only at h2
  rw [← h2, h1]

theorem groupBy_key_mem {α κ : Type} [DecidableEq κ] (key : α → κ) (l : List α)
    (k : κ) (g : List α) (h : (k, g) ∈ groupBy key l) : k ∈ l.map key := by
  simp only [groupBy, List.mem_map] at h
  obtain ⟨k2, hk2, heq⟩ := h
  have h1 : k2 = k := congrArg Prod.fst heq
  rw [← h1]
  exact (mem_uniqKeys _ _).mp hk2

/-- The heads of the (nonempty) groups: membership characterization. -/
theorem mem_groupBy_heads {α κ : Type} [DecidableEq κ] (key : α → κ)
    (l : List α) (x : α)
    (h : x ∈ (groupBy key l).filterMap (fun kg => kg.2.head?)) :
    x ∈ l ∧ (l.filter (fun y => key y = key x)).head? = some x := by
  simp only [List.mem_filterMap] at h
  obtain ⟨⟨k, g⟩, hmem, hhead⟩ := h
  have hg := groupBy_group_eq key l k g hmem
  subst hg
  have hx : x ∈ l.filter (fun y => key y = k) := List.mem_of_mem_head? hhead
  have hxl : x ∈ l := (List.mem_filter.mp hx).1
  have hkey : key x = k := by
    have := (List.mem_filter.mp hx).2
    simpa using this
  subst hkey
  exact ⟨hxl, hhead⟩

/-- Conversely, every head of a group is reached. -/
theorem head_mem_groupBy_heads {α κ : Type} [DecidableEq κ] (key : α → κ)
    (l : List α) (x : α) (hx : x ∈ l)
    (hhead : (l.filter (fun y => key y = key x)).head? = some x) :
    x ∈ (groupBy key l).filterMap (fun kg => kg.2.head?) := by
  simp only [List.mem_filterMap]
  refine ⟨(key x, l.filter (fun y => key y = key x)), ?_, hhead⟩
  simp only [groupBy, List.mem_map]
  refine ⟨key x, ?_, rfl⟩
  rw [mem_uniqKeys]
  exact List.mem_map_of_mem key hx

/-- Auxiliary: mapping the key over head-of-group extraction returns the keys. -/
theorem filterMap_heads_map_key {α κ : Type} [DecidableEq κ] (key : α → κ)
    (l : List α) (ks : List κ)
    (h : ∀ k ∈ ks, (l.filter (fun y => key y = k)) ≠ []) :
    ((ks.filterMap (fun k => (l.filter (fun y => key y = k)).head?)).map key) = ks := by
  induction ks with
  | nil => rfl
  | cons k ks ih =>
    have hne := h k (List.mem_cons_self k ks)
    obtain ⟨x, xs, hx⟩ := List.exists_cons_of_ne_nil hne
    have hhead : (l.filter (fun y => key y = k)).head? = some x := by
      rw [hx]; rfl
    have hkx : key x = k := by
      have : x ∈ l.filter (fun y => key y = k) := by
        rw [hx]; exact List.mem_cons_self x xs
      simpa using (List.mem_filter.mp this).2
    simp only [List.filterMap_cons, hhead, List.map_cons, hkx]
    rw [ih (fun k2 hk2 => h k2 (List.mem_cons_of_mem k hk2))]

/-- The keys of the group heads are exactly the distinct keys (in order). -/
theorem groupBy_heads_map_key {α κ : Type} [DecidableEq κ] (key : α → κ)
    (l : List α) :
    ((groupBy key l).filterMap (fun kg => kg.2.head?)).map key =
      uniqKeys (l.map key) := by
  unfold groupBy
  rw [List.filterMap_map]
  refine filterMap_heads_map_key key l _ ?_
  intro k hk
  rw [mem_uniqKeys] at hk
  obtain ⟨x, hx, rfl⟩ := List.mem_map.mp hk
  intro hempty
  have : x ∈ l.filter (fun y => key y = key x) := by
    simp [List.mem_filter, hx]
  rw [hempty] at this
  exact absurd this (List.not_mem_nil x)

/-- With pairwise-distinct keys, filtering on one element's key is a singleton. -/
theorem filter_key_singleton {α κ : Type} [DecidableEq κ] (key : α → κ)
    (l : List α) (hn : (l.map key).Nodup) (x : α) (hx : x ∈ l) :
    l.filter (fun y => key y = key x) = [x] := by
  induction l with
  | nil => cases hx
  | cons a as ih =>
    rw [List.map_cons, List.nodup_cons] at hn
    rcases List.mem_cons.mp hx with rfl | hx2
    · rw [List.filter_cons, if_pos (by simp)]
      have hnil : as.filter (fun y => key y = key x) = [] := by
        rw [List.filter_eq_nil_iff]
        intro b hb hbk
        simp only [decide_eq_true_eq] at hbk
        exact hn.1 (hbk ▸ List.mem_map_of_mem key hb)
      rw [hnil]
    · have hne : key a ≠ key x := by
        intro he
        exact hn.1 (he ▸ List.mem_map_of_mem key hx2)
      rw [List.filter_cons, if_neg (by simpa using hne)]
      exact ih hn.2 hx2

/-- When the keys of `l` are pairwise distinct, every group is a singleton. -/
theorem groupBy_singleton {α κ : Type} [DecidableEq κ] (key : α → κ)
    (l : List α) (hn : (l.map key).Nodup) (k : κ) (g : List α)
    (h : (k, g) ∈ groupBy key l) : ∃ x, g = [x] ∧ x ∈ l ∧ key x = k := by
  have hg := groupBy_group_eq key l k g h
  have hk := groupBy_key_mem key l k g h
  obtain ⟨x, hxl, hkx⟩ := List.mem_map.mp hk
  refine ⟨x, ?_, hxl, hkx⟩
  rw [hg, ← hkx]
  exact filter_key_singleton key l hn x hxl

/-- The bucket/priority sort key is transitive. -/
theorem rowLe_trans (a b c : Record × Int) (h1 : rowLe a b = true)
    (h2 : rowLe b c = true) : rowLe a c = true := by
  unfold rowLe at h1 h2 ⊢
  split_ifs at h1 h2 ⊢ <;> first | rfl | omega | (simp_all; omega)

/-- The bucket/priority sort key is total. -/
theorem rowLe_total (a b : Record × Int) : rowLe a b || rowLe b a := by
  unfold rowLe
  split_ifs <;> simp <;> omega

/-- The output timestamp sort key is transitive. -/
theorem outLe_trans (a b c : OutRow)
    (h1 : strLe a.timestamp b.timestamp = true)
    (h2 : strLe b.timestamp c.timestamp = true) :
    strLe a.timestamp c.timestamp = true :=
  strLeCore_trans _ _ _ h1 h2

/-- The output timestamp sort key is total. -/
theorem outLe_total (a b : OutRow) :
    strLe a.timestamp b.timestamp || strLe b.timestamp a.timestamp := by
  rcases strLeCore_total a.timestamp.data b.timestamp.data with h | h <;>
    simp [strLe, h]

instance : IsTrans (Record × Int) rowLeP :=
  ⟨fun a b c h1 h2 => rowLe_trans a b c h1 h2⟩

instance : IsTotal (Record × Int) rowLeP :=
  ⟨fun a b => by
    have h := rowLe_total a b
    unfold rowLeP
    rcases Bool.or_eq_true_iff.mp h with h1 | h1
    · exact Or.inl h1
    · exact Or.inr h1⟩

instance : IsTrans OutRow outLeP :=
  ⟨fun a b c h1 h2 => outLe_trans a b c h1 h2⟩

instance : IsTotal OutRow outLeP :=
  ⟨fun a b => by
    have h := outLe_total a b
    unfold outLeP
    rcases Bool.or_eq_true_iff.mp h with h1 | h1
    · exact Or.inl h1
    · exact Or.inr h1⟩

/-- `attachBuckets` succeeds exactly on the original rows, attaching their
strptime minute buckets. -/
theorem attachBuckets_spec (rs : List Record) (l : List (Record × Int))
    (h : attachBuckets rs = some l) :
    l.map Prod.fst = rs ∧
      ∀ p ∈ l, bucketMinute (zReplaceFirst p.1.timestamp) = some p.2 := by
  induction rs generalizing l with
  | nil =>
    simp only [attachBuckets, Option.some.injEq] at h
    subst h
    simp
  | cons r rest ih =>
    cases hbm : bucketMinute (zReplaceFirst r.timestamp) with
    | none => simp [attachBuckets, hbm] at h
    | some m =>
      cases hab : attachBuckets rest with
      | none => simp [attachBuckets, hbm, hab] at h
      | some rest2 =>
        simp only [attachBuckets, hbm, hab, Option.some.injEq] at h
        subst h
        obtain ⟨ih1, ih2⟩ := ih rest2 hab
        constructor
        · simp [ih1]
        · intro p hp
          rcases List.mem_cons.mp hp with rfl | hp2
          · simpa using hbm
          · exact ih2 p hp2

/-- `mean` of a one-element list is its element. -/
theorem listMean_singleton (q : Int) : listMean [q] = (q : ℚ) := by
  simp [listMean]

/-- The head of a `Pairwise le` list is `le`-below every member. -/
theorem head_le_of_pairwise {α : Type} (le : α → α → Bool) (l : List α) (x : α)
    (hp : l.Pairwise (fun a b => le a b = true)) (hx : l.head? = some x) :
    ∀ y ∈ l, x = y ∨ le x y = true := by
  cases l with
  | nil => simp at hx
  | cons a as =>
    have hxa : x = a := by simpa using hx.symm
    subst hxa
    intro y hy
    rcases List.mem_cons.mp hy with rfl | hy2
    · exact Or.inl rfl
    · exact Or.inr ((List.pairwise_cons.mp hp).1 y hy2)

/-- Timestamps of the aggregated rows, one per distinct bucket key. -/
theorem outs_map_timestamp (firsts : List (Record × Int)) (ks : List Int)
    (h : ∀ k ∈ ks, (firsts.filter (fun y => y.2 = k)) ≠ []) :
    ((ks.filterMap (fun k => ((firsts.filter (fun y => y.2 = k)).head?).map
      (fun hd =>
        ({ heart_rate := round2 (listMean ((firsts.filter (fun y => y.2 = k)).map
             (fun rb => rb.1.heart_rate))),
           device_id := hd.1.device_id,
           timestamp := formatMinute k } : OutRow)))).map (fun o => o.timestamp)) =
      ks.map formatMinute := by
  induction ks with
  | nil => rfl
  | cons k ks ih =>
    have hne := h k (List.mem_cons_self k ks)
    obtain ⟨x, xs, hx⟩ := List.exists_cons_of_ne_nil hne
    have hhead : (firsts.filter (fun y => y.2 = k)).head? = some x := by
      rw [hx]; rfl
    rw [List.filterMap_cons, hhead]
    simp only [Option.map_some']
    rw [List.map_cons]
    rw [ih (fun k2 hk2 => h k2 (List.mem_cons_of_mem k hk2))]
    simp

/-- Full characterization of the aggregation pipeline output: every output
row is built from a single minimum-priority row of its bucket, output
timestamps are pairwise distinct, and the output is sorted byte-wise by
timestamp. -/
theorem aggregatePipeline_spec (u : String) (withB : List (Record × Int))
    (huser : ∀ p ∈ withB, p.1.user_id = u) :
    (∀ o ∈ aggregatePipeline withB, ∃ p, p ∈ withB ∧
      (∀ q ∈ withB, q.2 = p.2 →
        priorityOf p.1.device_id ≤ priorityOf q.1.device_id) ∧
      o.timestamp = formatMinute p.2 ∧ o.device_id = p.1.device_id ∧
      o.heart_rate = round2 (p.1.heart_rate : ℚ)) ∧
    ((aggregatePipeline withB).map (fun o => o.timestamp)).Nodup ∧
    (aggregatePipeline withB).Pairwise
      (fun a b => strLe a.timestamp b.timestamp = true) := by
  unfold aggregatePipeline
  set key1 : Record × Int → Int × String := fun rb => (rb.2, rb.1.user_id) with hkey1
  set key2 : Record × Int → Int := fun rb => rb.2 with hkey2
  set sorted := List.insertionSort rowLeP withB with hsorted
  set firsts := (groupBy key1 sorted).filterMap (fun kg => kg.2.head?) with hfirsts
  have hperm : List.Perm sorted withB := by
    rw [hsorted]
    exact List.perm_insertionSort rowLeP withB
  have hPW : sorted.Pairwise (fun a b => rowLe a b = true) := by
    have h2 := List.sorted_insertionSort rowLeP withB
    rw [← hsorted] at h2
    exact h2
  -- members of firsts with their minimality
  have hfirstsSpec : ∀ x ∈ firsts, x ∈ withB ∧
      (∀ q ∈ withB, q.2 = x.2 →
        priorityOf x.1.device_id ≤ priorityOf q.1.device_id) := by
    intro x hxf
    obtain ⟨hxs, hhead⟩ := mem_groupBy_heads key1 sorted x hxf
    refine ⟨hperm.mem_iff.mp hxs, ?_⟩
    intro q hq hq2
    have hqs : q ∈ sorted := hperm.mem_iff.mpr hq
    have hkq : key1 q = key1 x := by
      simp only [hkey1]
      rw [hq2, huser q hq, huser x (hperm.mem_iff.mp hxs)]
    have hqfil : q ∈ sorted.filter (fun y => key1 y = key1 x) := by
      rw [List.mem_filter]
      exact ⟨hqs, by simp [hkq]⟩
    have hfilPW := hPW.filter (fun y => key1 y = key1 x)
    have := head_le_of_pairwise rowLe _ x hfilPW hhead q hqfil
    rcases this with rfl | hle
    · exact le_refl _
    · unfold rowLe at hle
      rw [if_neg (by omega), if_neg (by omega)] at hle
      simpa using hle
  have huserF : ∀ x ∈ firsts, x.1.user_id = u := by
    intro x hx
    exact huser x (hfirstsSpec x hx).1
  -- distinct bucket keys among firsts
  have hkeys1 : (firsts.map key1).Nodup := by
    rw [hfirsts, groupBy_heads_map_key key1 sorted]
    exact uniqKeys_nodup _
  have hmapeq : firsts.map key1 = (firsts.map key2).map (fun b => (b, u)) := by
    rw [List.map_map]
    refine List.map_congr_left ?_
    intro x hx
    simp only [hkey1, hkey2, Function.comp]
    rw [huserF x hx]
  have hkeys2 : (firsts.map key2).Nodup := by
    rw [hmapeq] at hkeys1
    exact hkeys1.of_map _
  -- the aggregated rows before the final sort
  set outs := (groupBy key2 firsts).filterMap
    (fun kg => kg.2.head?.map (fun h =>
      ({ heart_rate :=
           round2 (listMean (kg.2.map (fun rb => rb.1.heart_rate))),
         device_id := h.1.device_id,
         timestamp := formatMinute kg.1 } : OutRow))) with houts
  have houtsSpec : ∀ o ∈ outs, ∃ p, p ∈ withB ∧
      (∀ q ∈ withB, q.2 = p.2 →
        priorityOf p.1.device_id ≤ priorityOf q.1.device_id) ∧
      o.timestamp = formatMinute p.2 ∧ o.device_id = p.1.device_id ∧
      o.heart_rate = round2 (p.1.heart_rate : ℚ) := by
    intro o ho
    rw [houts] at ho
    simp only [List.mem_filterMap] at ho
    obtain ⟨⟨k, g⟩, hmem, hmk⟩ := ho
    obtain ⟨x, rfl, hxf, hkx⟩ := groupBy_singleton key2 firsts hkeys2 k g hmem
    simp only [List.head?, Option.map_some', Option.some.injEq] at hmk
    obtain ⟨hx1, hx2⟩ := hfirstsSpec x hxf
    refine ⟨x, hx1, ?_, ?_, ?_, ?_⟩
    · intro q hq hq2
      exact hx2 q hq hq2
    · rw [← hmk]
      show formatMinute k = _
      rw [← hkx]
    · rw [← hmk]
    · rw [← hmk]
      show round2 (listMean _) = _
      rw [show List.map (fun rb => rb.1.heart_rate) [x] =
        [x.1.heart_rate] from rfl, listMean_singleton]
  -- distinct timestamps
  have houtsTs : outs.map (fun o => o.timestamp) =
      (uniqKeys (firsts.map key2)).map formatMinute := by
    rw [houts]
    unfold groupBy
    rw [List.filterMap_map]
    refine outs_map_timestamp firsts _ ?_
    intro k hk
    rw [mem_uniqKeys] at hk
    obtain ⟨x, hx, rfl⟩ := List.mem_map.mp hk
    intro hempty
    have : x ∈ firsts.filter (fun y => y.2 = key2 x) := by
      simp [List.mem_filter, hx, hkey2]
    rw [hempty] at this
    exact absurd this (List.not_mem_nil x)
  have houtsNodup : (outs.map (fun o => o.timestamp)).Nodup := by
    rw [houtsTs]
    exact (uniqKeys_nodup _).map (fun a b h => formatMinute_inj a b h)
  -- final sort
  have hpermF : List.Perm (List.insertionSort outLeP outs) outs :=
    List.perm_insertionSort outLeP outs
  refine ⟨?_, ?_, ?_⟩
  · intro o ho
    exact houtsSpec o (hpermF.mem_iff.mp ho)
  · exact ((hpermF.map (fun o => o.timestamp)).nodup_iff).mpr houtsNodup
  · have h3 := List.sorted_insertionSort outLeP outs
    exact h3

/-! ## Structure of successfully parsed timestamps -/

theorem digitValC_spec (c : Char) (v : Nat) (h : digitValC c = some v) :
    v ≤ 9 ∧ digitChar v = c := by
  unfold digitValC at h
  split_ifs at h with hc
  simp only [Option.some.injEq] at h
  subst h
  refine ⟨by omega, ?_⟩
  unfold digitChar
  rw [show 48 + (c.toNat - 48) = c.toNat by omega]
  exact Char.ofNat_toNat c

theorem parse2_spec (cs : List Char) (v : Nat) (rest : List Char)
    (h : parse2 cs = some (v, rest)) :
    v ≤ 99 ∧ cs = pad2 v ++ rest := by
  cases cs with
  | nil => simp [parse2] at h
  | cons c1 cs2 =>
    cases cs2 with
    | nil => simp [parse2] at h
    | cons c2 cs3 =>
      simp only [parse2] at h
      cases h1 : digitValC c1 with
      | none => rw [h1] at h; simp at h
      | some a =>
        cases h2 : digitValC c2 with
        | none => rw [h1, h2] at h; simp at h
        | some b =>
          rw [h1, h2] at h
          simp only [Option.some.injEq, Prod.mk.injEq] at h
          obtain ⟨hv, hrest⟩ := h
          obtain ⟨ha9, hca⟩ := digitValC_spec c1 a h1
          obtain ⟨hb9, hcb⟩ := digitValC_spec c2 b h2
          subst hv hrest
          refine ⟨by omega, ?_⟩
          simp only [pad2, List.cons_append, List.nil_append, List.cons.injEq]
          refine ⟨?_, ?_, trivial⟩
          · rw [← hca]
            congr 1
            omega
          · rw [← hcb]
            congr 1
            omega


theorem validCivil_bounds (c : CivilDate) (h : validCivil c = true) :
    1 ≤ c.month ∧ c.month ≤ 12 ∧ 1 ≤ c.day ∧ c.day ≤ 31 := by
  obtain ⟨y, m, d⟩ := c
  simp only [validCivil, Bool.and_eq_true, decide_eq_true_eq] at h
  obtain ⟨⟨⟨h1, h2⟩, h3⟩, h4⟩ := h
  simp only at h1 h2 h3 h4 ⊢
  unfold daysInMonth at h4
  split_ifs at h4 <;> omega

theorem dateChars_length (c : CivilDate) : (dateChars c).length = 10 := by
  simp [dateChars, pad4, pad2]

theorem parseDate_spec (cs : List Char) (cd : CivilDate) (rest : List Char)
    (h : parseDate cs = some (cd, rest)) :
    cs = dateChars cd ++ rest ∧ validCivil cd = true ∧
      1 ≤ cd.year ∧ cd.year ≤ 9999 := by
  cases cs with
  | nil => simp [parseDate] at h
  | cons y1 cs1 =>
  cases cs1 with
  | nil => simp [parseDate] at h
  | cons y2 cs2 =>
  cases cs2 with
  | nil => simp [parseDate] at h
  | cons y3 cs3 =>
  cases cs3 with
  | nil => simp [parseDate] at h
  | cons y4 cs4 =>
  cases cs4 with
  | nil => simp [parseDate] at h
  | cons dash1 rest1 =>
  simp only [parseDate] at h
  split_ifs at h with hdash1
  subst hdash1
  cases h1 : digitValC y1 with
  | none => rw [h1] at h; simp at h
  | some a =>
  cases h2 : digitValC y2 with
  | none => rw [h1, h2] at h; simp at h
  | some b =>
  cases h3 : digitValC y3 with
  | none => rw [h1, h2, h3] at h; simp at h
  | some c =>
  cases h4 : digitValC y4 with
  | none => rw [h1, h2, h3, h4] at h; simp at h
  | some d =>
  rw [h1, h2, h3, h4] at h
  cases hp1 : parse2 rest1 with
  | none => rw [hp1] at h; simp at h
  | some p1 =>
  obtain ⟨mo, rest1b⟩ := p1
  rw [hp1] at h
  cases rest1b with
  | nil => simp at h
  | cons dash2 rest2 =>
  simp only at h
  split_ifs at h with hdash2
  subst hdash2
  cases hp2 : parse2 rest2 with
  | none => rw [hp2] at h; simp at h
  | some p2 =>
  obtain ⟨dd, rest3⟩ := p2
  rw [hp2] at h
  simp only at h
  split_ifs at h with hval
  simp only [Option.some.injEq, Prod.mk.injEq] at h
  obtain ⟨hcd, hrest⟩ := h
  subst hcd
  subst hrest
  obtain ⟨ha9, hca⟩ := digitValC_spec y1 a h1
  obtain ⟨hb9, hcb⟩ := digitValC_spec y2 b h2
  obtain ⟨hc9, hcc⟩ := digitValC_spec y3 c h3
  obtain ⟨hd9, hcd4⟩ := digitValC_spec y4 d h4
  obtain ⟨hmo99, hrest1⟩ := parse2_spec rest1 mo ('-' :: rest2) hp1
  obtain ⟨hdd99, hrest2⟩ := parse2_spec rest2 dd rest3 hp2
  refine ⟨?_, hval.2, hval.1, by simp only; omega⟩
  subst hrest1
  subst hrest2
  simp only [dateChars, pad4, pad2]
  simp only [List.cons_append, List.nil_append, List.cons.injEq, List.append_assoc]
  have htn : ((1000 * a + 100 * b + 10 * c + d : Nat) : Int).toNat =
      1000 * a + 100 * b + 10 * c + d := by omega
  have hmo : ((mo : Nat) : Int).toNat = mo := by omega
  have hdd : ((dd : Nat) : Int).toNat = dd := by omega
  simp only [htn, hmo, hdd]
  refine ⟨?_, ?_, ?_, ?_, trivial, by simp⟩
  · rw [← hca]; congr 1; omega
  · rw [← hcb]; congr 1; omega
  · rw [← hcc]; congr 1; omega
  · rw [← hcd4]; congr 1; omega

theorem parseIso_take10 (s : String) (dt : PyDateTime)
    (h : parseIso s = some dt) :
    s.data.take 10 = dateChars dt.date ∧ validCivil dt.date = true ∧
      1 ≤ dt.date.year ∧ dt.date.year ≤ 9999 := by
  unfold parseIso at h
  cases hpd : parseDate s.data with
  | none => rw [hpd] at h; simp at h
  | some p =>
    obtain ⟨cd, rest⟩ := p
    rw [hpd] at h
    obtain ⟨hcs, hv, hy1, hy2⟩ := parseDate_spec s.data cd rest hpd
    have hdate : dt.date = cd := by
      cases rest with
      | nil =>
        simp only [Option.some.injEq] at h
        rw [← h]
      | cons sep rest2 =>
        simp only at h
        cases hpt : parseTime rest2 with
        | none => rw [hpt] at h; simp at h
        | some q =>
          obtain ⟨hh, mi, ss, off⟩ := q
          rw [hpt] at h
          simp only [Option.some.injEq] at h
          rw [← h]
    rw [hdate]
    refine ⟨?_, hv, hy1, hy2⟩
    rw [hcs, ← dateChars_length cd]
    exact List.take_left _ _

theorem zAllCore_take (cs : List Char) (n : Nat)
    (h : ∀ c ∈ (zAllCore cs).take n, c ≠ '+') :
    (zAllCore cs).take n = cs.take n := by
  induction cs generalizing n with
  | nil => simp [zAllCore]
  | cons c cs ih =>
    cases n with
    | zero => simp
    | succ n =>
      by_cases hcz : c = 'Z'
      · exfalso
        apply h '+'
        · subst hcz
          simp [zAllCore]
        · rfl
      · simp only [zAllCore, if_neg hcz, List.take_succ_cons] at h ⊢
        rw [ih n ?_]
        intro c2 hc2
        exact h c2 (List.mem_cons_of_mem _ hc2)

theorem dateChars_no_plus (c : CivilDate) : ∀ ch ∈ dateChars c, ch ≠ '+' := by
  intro ch hch
  simp only [dateChars, pad4, pad2, List.mem_append, List.mem_cons,
    List.not_mem_nil, or_false, List.cons_append, List.nil_append] at hch
  rcases hch with h | h | h | h | h | h | h | h | h | h <;> subst h <;>
    first
      | exact digitChar_ne_plus _ (by omega)
      | decide

/-- The first ten characters of a timestamp accepted by
`parseIso (zReplaceAll ·)` are exactly the `YYYY-MM-DD` rendering of the
parsed civil date. -/
theorem parseIso_zAll_take10 (s : String) (dt : PyDateTime)
    (h : parseIso (zReplaceAll s) = some dt) :
    s.data.take 10 = dateChars dt.date := by
  obtain ⟨ht, hv, hy1, hy2⟩ := parseIso_take10 _ _ h
  have hz : (zReplaceAll s).data = zAllCore s.data := rfl
  rw [hz] at ht
  rw [← zAllCore_take s.data 10 ?_]
  · exact ht
  · rw [ht]
    exact dateChars_no_plus dt.date

/-! ## Candidate-set characterisation -/

def devPass (dev : Option String) (r : Record) : Bool :=
  match dev with
  | none => true
  | some d => d == "" || r.device_id == d

def recordWF (k : String) (r : Record) : Prop :=
  ∃ dt, parseIso (zReplaceAll r.timestamp) = some dt ∧
    r.date = pyDateStr dt ∧ k = partitionFile r.date

def storeWF (files : String → Option (List Record)) : Prop :=
  ∀ k rows, files k = some rows → ∀ r ∈ rows, recordWF k r

theorem civil_days_le (a b : CivilDate)
    (ha : validCivil a = true) (hya : 0 ≤ a.year ∧ a.year ≤ 9999)
    (hb : validCivil b = true) (hyb : 0 ≤ b.year ∧ b.year ≤ 9999)
    (h : strLeCore (dateChars a) (dateChars b) = true) :
    daysFromCivil a ≤ daysFromCivil b := by
  obtain ⟨hma, hma2, hda, hda2⟩ := validCivil_bounds a ha
  obtain ⟨hmb, hmb2, hdb, hdb2⟩ := validCivil_bounds b hb
  rcases dateChars_le_civil a b ⟨hya.1, hya.2, by omega, by omega, by omega, by omega⟩
      ⟨hyb.1, hyb.2, by omega, by omega, by omega, by omega⟩ h with hlt | heq
  · exact le_of_lt (daysFromCivil_strictMono a b ha hb hlt)
  · rw [heq]

theorem strLe_dates (s t : String) (A B : PyDateTime)
    (hs : parseIso (zReplaceAll s) = some A)
    (ht : parseIso (zReplaceAll t) = some B)
    (h : strLe s t = true) :
    daysFromCivil A.date ≤ daysFromCivil B.date := by
  have h10 : strLeCore (s.data.take 10) (t.data.take 10) = true :=
    strLeCore_take s.data t.data 10 h
  rw [parseIso_zAll_take10 s A hs, parseIso_zAll_take10 t B ht] at h10
  obtain ⟨_, hvA, hy1A, hy2A⟩ := parseIso_take10 _ _ hs
  obtain ⟨_, hvB, hy1B, hy2B⟩ := parseIso_take10 _ _ ht
  exact civil_days_le A.date B.date hvA ⟨by omega, by omega⟩
    hvB ⟨by omega, by omega⟩ h10

theorem mem_filesInRange (sd ed : CivilDate) (files : String → Option (List Record))
    (k : String) :
    k ∈ filesInRange sd ed files ↔
      ((files k).isSome ∧ ∃ day : Int, daysFromCivil sd ≤ day ∧
        day ≤ daysFromCivil ed ∧
        k = partitionFile ⟨dateChars (civilFromDays day)⟩) := by
  unfold filesInRange
  rw [List.mem_filter]
  simp only [List.mem_map, List.mem_range]
  constructor
  · rintro ⟨⟨i, hi, hk⟩, hsome⟩
    subst hk
    refine ⟨hsome, daysFromCivil sd + (i : Int), ?_, ?_, rfl⟩
    · omega
    · omega
  · rintro ⟨hsome, day, h1, h2, rfl⟩
    refine ⟨⟨(day - daysFromCivil sd).toNat, ?_, ?_⟩, hsome⟩
    · omega
    · have hd : daysFromCivil sd + (((day - daysFromCivil sd).toNat : Nat) : Int) =
          day := by omega
      rw [hd]

theorem mem_devFilter (dev : Option String) (rows1 : List Record) (r : Record) :
    r ∈ devFilter dev rows1 ↔ (r ∈ rows1 ∧ devPass dev r = true) := by
  cases dev with
  | none => simp [devFilter, devPass]
  | some d =>
    simp only [devFilter, devPass]
    by_cases hd : d = ""
    · subst hd
      simp
    · rw [if_neg hd, List.mem_filter]
      have hne : (d == "") = false := by
        simp [hd]
      rw [hne, Bool.false_or]

theorem queryCandidates_mem_iff (u s e : String) (dev : Option String)
    (files : String → Option (List Record)) (hwf : storeWF files)
    (sdt edt : PyDateTime)
    (hs : parseIso (zReplaceAll s) = some sdt)
    (he : parseIso (zReplaceAll e) = some edt)
    (r : Record) :
    r ∈ queryCandidates u s e dev files ↔
      ((∃ rows, files (partitionFile r.date) = some rows ∧ r ∈ rows) ∧
        r.user_id = u ∧ devPass dev r = true ∧
        strLe s r.timestamp = true ∧ strLe r.timestamp e = true) := by
  unfold queryCandidates
  rw [hs, he]
  simp only
  rw [List.mem_filter, mem_devFilter, List.mem_filter, List.mem_flatten]
  simp only [List.mem_map, Bool.and_eq_true, beq_iff_eq]
  constructor
  · rintro ⟨⟨⟨⟨l, ⟨k, hk, rfl⟩, hrl⟩, huid⟩, hdev⟩, hcmp1, hcmp2⟩
    rw [mem_filesInRange] at hk
    obtain ⟨hsome, _⟩ := hk
    obtain ⟨rows, hrows⟩ := Option.isSome_iff_exists.mp hsome
    rw [hrows] at hrl
    simp only [Option.getD_some] at hrl
    obtain ⟨dt, hdt, hdate, hkey⟩ := hwf k rows hrows r hrl
    subst hkey
    exact ⟨⟨rows, hrows, hrl⟩, huid, hdev, hcmp1, hcmp2⟩
  · rintro ⟨⟨rows, hrows, hrl⟩, huid, hdev, hcmp1, hcmp2⟩
    obtain ⟨dt, hdt, hdate, _⟩ :=
      hwf (partitionFile r.date) rows hrows r hrl
    have hkmem : partitionFile r.date ∈ filesInRange sdt.date edt.date files := by
      rw [mem_filesInRange]
      refine ⟨by rw [hrows]; rfl, daysFromCivil dt.date, ?_, ?_, ?_⟩
      · exact strLe_dates s r.timestamp sdt dt hs hdt hcmp1
      · exact strLe_dates r.timestamp e dt edt hdt he hcmp2
      · obtain ⟨_, hv, _, _⟩ := parseIso_take10 _ _ hdt
        rw [civilFromDays_daysFromCivil dt.date hv, hdate]
        rfl
    refine ⟨⟨⟨⟨(files (partitionFile r.date)).getD [],
      ⟨partitionFile r.date, hkmem, rfl⟩, ?_⟩, huid⟩, hdev⟩, hcmp1, hcmp2⟩
    rw [hrows]
    simpa using hrl

/-! ## queryMetrics-level facts -/

theorem queryCandidates_user (u s e : String) (dev : Option String)
    (files : String → Option (List Record)) (r : Record)
    (hr : r ∈ queryCandidates u s e dev files) : r.user_id = u := by
  unfold queryCandidates at hr
  cases hps : parseIso (zReplaceAll s) with
  | none =>
    rw [hps] at hr
    simp at hr
  | some sdt =>
    cases hpe : parseIso (zReplaceAll e) with
    | none =>
      rw [hps, hpe] at hr
      simp at hr
    | some edt =>
      rw [hps, hpe] at hr
      dsimp only at hr
      rw [List.mem_filter, mem_devFilter, List.mem_filter] at hr
      have := hr.1.1.2
      simpa using this

theorem queryMetrics_ok_spec (u s e : String) (dev : Option String)
    (files : String → Option (List Record)) (outs : List OutRow)
    (h : queryMetrics u s e dev files = .ok outs) :
    (∀ o ∈ outs, ∃ r : Record, ∃ m : Int,
      r ∈ queryCandidates u s e dev files ∧
      bucketMinute (zReplaceFirst r.timestamp) = some m ∧
      (∀ r2 ∈ queryCandidates u s e dev files, ∀ m2 : Int,
        bucketMinute (zReplaceFirst r2.timestamp) = some m2 → m2 = m →
        priorityOf r.device_id ≤ priorityOf r2.device_id) ∧
      o.timestamp = formatMinute m ∧ o.device_id = r.device_id ∧
      o.heart_rate = round2 (r.heart_rate : ℚ)) ∧
    (outs.map (fun o => o.timestamp)).Nodup ∧
    outs.Pairwise (fun a b => strLe a.timestamp b.timestamp = true) := by
  unfold queryMetrics at h
  cases hps : parseIso (zReplaceAll s) with
  | none =>
    rw [hps] at h
    simp at h
  | some sdt =>
  cases hpe : parseIso (zReplaceAll e) with
  | none =>
    rw [hps, hpe] at h
    simp at h
  | some edt =>
  rw [hps, hpe] at h
  dsimp only at h
  split_ifs at h with hfir hempty
  · -- no files in range: empty result
    have hout : outs = [] := by
      cases h
      rfl
    subst hout
    refine ⟨by simp, by simp, by simp⟩
  · have hout : outs = [] := by
      cases h
      rfl
    subst hout
    refine ⟨by simp, by simp, by simp⟩
  · cases hab : attachBuckets (queryCandidates u s e dev files) with
      | none =>
        rw [hab] at h
        simp at h
      | some withB =>
        rw [hab] at h
        have hout : outs = aggregatePipeline withB := by
          cases h
          rfl
        subst hout
        obtain ⟨hmap, hbuck⟩ := attachBuckets_spec _ withB hab
        have hmemB : ∀ p : Record × Int, p ∈ withB →
            p.1 ∈ queryCandidates u s e dev files := by
          intro p hp
          rw [← hmap]
          exact List.mem_map_of_mem Prod.fst hp
        have huser : ∀ p ∈ withB, (p : Record × Int).1.user_id = u := by
          intro p hp
          exact queryCandidates_user u s e dev files p.1 (hmemB p hp)
        obtain ⟨hrows, hnodup, hsorted⟩ := aggregatePipeline_spec u withB huser
        refine ⟨?_, hnodup, hsorted⟩
        intro o ho
        obtain ⟨p, hpB, hmin, hts, hdev, hhr⟩ := hrows o ho
        refine ⟨p.1, p.2, hmemB p hpB, hbuck p hpB, ?_, hts, hdev, hhr⟩
        intro r2 hr2 m2 hbm2 hm2
        -- lift r2 back to a pair in withB
        have : ∃ q : Record × Int, q ∈ withB ∧ q.1 = r2 := by
          rw [← hmap] at hr2
          obtain ⟨q, hq, hq2⟩ := List.mem_map.mp hr2
          exact ⟨q, hq, hq2⟩
        obtain ⟨q, hqB, hq1⟩ := this
        have hq2 : q.2 = m2 := by
          have := hbuck q hqB
          rw [hq1, hbm2] at this
          exact (Option.some.injEq _ _).mp this.symm
        have := hmin q hqB (by rw [hq2, hm2])
        rw [hq1] at this
        exact this

/-! ## Ingest-side facts -/

theorem ingestLoop_spec (rs : List RawReading) (acc rej : Nat) (recs : List Record) :
    ingestLoop rs acc rej recs =
      (acc + rs.countP (fun r => (buildRecord r).isSome),
       rej + rs.countP (fun r => (buildRecord r).isNone),
       recs ++ rs.filterMap buildRecord) := by
  induction rs generalizing acc rej recs with
  | nil => simp [ingestLoop]
  | cons r rest ih =>
    cases hb : buildRecord r with
    | some rec =>
      simp only [ingestLoop, hb]
      rw [ih, List.countP_cons_of_pos _ _ (by simp [hb]),
        List.countP_cons_of_neg _ _ (by simp [hb]),
        List.filterMap_cons_some hb]
      refine congrArg₂ Prod.mk (by omega) (congrArg₂ Prod.mk (by omega) (by simp))
    | none =>
      simp only [ingestLoop, hb]
      rw [ih, List.countP_cons_of_neg _ _ (by simp [hb]),
        List.countP_cons_of_pos _ _ (by simp [hb]),
        List.filterMap_cons_none hb]
      refine congrArg₂ Prod.mk rfl (congrArg₂ Prod.mk (by omega) rfl)

theorem dequeAppend_of_le (cap : Nat) (l : List Record) (x : Record)
    (h : l.length + 1 ≤ cap) : dequeAppend cap l x = l ++ [x] := by
  unfold dequeAppend
  rw [if_pos h]

theorem dequeExtend_of_le (cap : Nat) (xs l : List Record)
    (h : l.length + xs.length ≤ cap) : dequeExtend cap l xs = l ++ xs := by
  induction xs generalizing l with
  | nil => simp [dequeExtend]
  | cons x xs ih =>
    have h1 : dequeAppend cap l x = l ++ [x] :=
      dequeAppend_of_le cap l x (by simp at h; omega)
    have h2 := ih (l ++ [x]) (by simp at h ⊢; omega)
    unfold dequeExtend at h2 ⊢
    simp only [List.foldl_cons, h1]
    rw [h2]
    simp

theorem ingestBatch_counts (rs : List RawReading) (s : StoreState) :
    (ingestBatch rs s).1.1 = rs.countP (fun r => (buildRecord r).isSome) ∧
    (ingestBatch rs s).1.2 = rs.countP (fun r => (buildRecord r).isNone) := by
  unfold ingestBatch
  rw [ingestLoop_spec]
  dsimp only
  split_ifs <;> simp

theorem ingestBatch_total (rs : List RawReading) (s : StoreState) :
    (ingestBatch rs s).1.1 + (ingestBatch rs s).1.2 = rs.length := by
  obtain ⟨h1, h2⟩ := ingestBatch_counts rs s
  rw [h1, h2]
  have := List.length_eq_countP_add_countP (fun r => (buildRecord r).isSome) rs
  rw [this]
  congr 1
  refine List.countP_congr ?_
  intro r hr
  cases hb : buildRecord r <;> simp [hb]

theorem ingestBatch_buffer_small (rs : List RawReading) (s : StoreState)
    (h : s.buffer.length + (rs.filterMap buildRecord).length < BATCH_SIZE) :
    (ingestBatch rs s).2.buffer = s.buffer ++ rs.filterMap buildRecord := by
  unfold ingestBatch
  rw [ingestLoop_spec]
  dsimp only
  rw [List.nil_append]
  have hext : dequeExtend (BATCH_SIZE * 2) s.buffer (rs.filterMap buildRecord) =
      s.buffer ++ rs.filterMap buildRecord := by
    refine dequeExtend_of_le _ _ _ ?_
    unfold BATCH_SIZE at h ⊢
    omega
  split_ifs with h1 h2
  · rw [List.isEmpty_iff] at h1
    rw [h1]
    simp
  · rw [hext] at h2
    rw [List.length_append] at h2
    omega
  · rw [hext]

/-! ## File-operation trace of `_flush_buffer_unlocked` (claim C4) -/

/-- A file-system operation performed by the flush path. -/
inductive FsOp where
  | read : String → FsOp
  | write : String → List Record → FsOp
  | rename : String → String → FsOp
deriving DecidableEq

/-- The file operations `_flush_buffer_unlocked` performs, date group by
date group: read the existing partition when present, then write the
combined frame back to the same path.  There is no temporary file and no
rename. -/
def flushOps (s : StoreState) : List FsOp :=
  ((uniqKeys (s.buffer.map (fun r => partitionFile r.date))).map
    (fun k =>
      let grp := s.buffer.filter (fun r => partitionFile r.date == k)
      match s.files k with
      | some ex => [FsOp.read k, FsOp.write k (ex ++ grp)]
      | none => [FsOp.write k grp])).flatten

def isRename : FsOp → Bool
  | .rename _ _ => true
  | _ => false

theorem flushOps_no_rename (s : StoreState) :
    ∀ op ∈ flushOps s, isRename op = false := by
  intro op hop
  unfold flushOps at hop
  rw [List.mem_flatten] at hop
  obtain ⟨l, hl, hopl⟩ := hop
  rw [List.mem_map] at hl
  obtain ⟨k, hk, rfl⟩ := hl
  dsimp only at hopl
  cases hsf : s.files k <;> rw [hsf] at hopl <;>
    simp only [List.mem_cons, List.not_mem_nil, or_false] at hopl
  · rw [hopl]
    rfl
  · rcases hopl with rfl | rfl <;> rfl

/-! ## The claims

Each claim of the specification is settled by one theorem below; concrete
stores and batches used by witnesses and counterexamples are defined first. -/

deriving instance DecidableEq for Except

/-- The observable state after `ingest_metric`: an exception leaves the
pre-call state in place. -/
def stateAfterIngest (device_id user_id timestamp : String) (heart_rate : Int)
    (s : StoreState) : StoreState :=
  match ingestMetric device_id user_id timestamp heart_rate s with
  | .ok s2 => s2
  | .error _ => s

/-- Three readings of one device and user inside the 10:00 minute. -/
def c1rec (ts : String) (hr : Int) : Record :=
  ⟨"device_a", "u1", ts, hr, "2024-01-15"⟩

def c1files : String → Option (List Record) := fun k =>
  if k = "heart_rate_metrics_2024-01-15.parquet" then
    some [c1rec "2024-01-15T10:00:00Z" 70, c1rec "2024-01-15T10:00:20Z" 72,
      c1rec "2024-01-15T10:00:40Z" 74]
  else none

/-- One `device_b` and one `device_a` reading in the same user minute. -/
def c2files : String → Option (List Record) := fun k =>
  if k = "heart_rate_metrics_2024-01-15.parquet" then
    some [⟨"device_b", "u1", "2024-01-15T10:00:10Z", 90, "2024-01-15"⟩,
      ⟨"device_a", "u1", "2024-01-15T10:00:05Z", 80, "2024-01-15"⟩]
  else none

def c3raw (u : String) : RawReading :=
  ⟨some "device_a", some u, some "2024-01-15T10:00:00Z", some 70⟩

/-- 201 valid readings: one for user `u0`, then 200 for `u1`. -/
def c3batch : List RawReading := c3raw "u0" :: List.replicate 200 (c3raw "u1")

def c3rec1 : Record := ⟨"device_a", "u1", "2024-01-15T10:00:00Z", 70, "2024-01-15"⟩

def c3s0 : StoreState := ⟨[], fun _ => none⟩

def c3key : String := "heart_rate_metrics_2024-01-15.parquet"

def c4old : List Record :=
  [⟨"device_a", "u1", "2024-01-15T09:00:00Z", 61, "2024-01-15"⟩,
   ⟨"device_a", "u1", "2024-01-15T09:01:00Z", 62, "2024-01-15"⟩]

def c4newrec : Record := ⟨"device_a", "u1", "2024-01-15T09:02:00Z", 63, "2024-01-15"⟩

/-- A store with an existing two-row partition and one buffered row for the
same date. -/
def c4state : StoreState :=
  ⟨[c4newrec], fun k =>
    if k = "heart_rate_metrics_2024-01-15.parquet" then some c4old else none⟩

def c5raw (u : String) : RawReading :=
  ⟨some "device_a", some u, some "2024-01-15T10:00:00Z", some 70⟩

/-- 250 valid readings: one for user `u5`, then 249 for `u6`. -/
def c5batch : List RawReading := c5raw "u5" :: List.replicate 249 (c5raw "u6")

def c5rec6 : Record := ⟨"device_a", "u6", "2024-01-15T10:00:00Z", 70, "2024-01-15"⟩

def c5s0 : StoreState := ⟨[], fun _ => none⟩

/-- One well-formed row between a row with an unparseable timestamp and a
row with a missing field. -/
def c6batch : List RawReading :=
  [⟨some "device_a", some "u1", some "not-a-timestamp", some 70⟩,
   ⟨some "device_a", some "u1", some "2024-01-15T10:00:00Z", some 71⟩,
   ⟨some "device_a", none, some "2024-01-15T10:00:00Z", some 72⟩]

def c6rec : Record := ⟨"device_a", "u1", "2024-01-15T10:00:00Z", 71, "2024-01-15"⟩

def c6s0 : StoreState := ⟨[], fun _ => none⟩

/-- A reading whose UTC instant lies in year 10000. -/
def c7files : String → Option (List Record) := fun k =>
  if k = "heart_rate_metrics_9999-12-31.parquet" then
    some [⟨"device_a", "u1", "9999-12-31T23:30:00-01:00", 77, "9999-12-31"⟩]
  else none

/-- A stored reading whose timestamp ends in `Z`. -/
def c8rec : Record := ⟨"device_a", "u1", "2024-01-15T10:00:30Z", 80, "2024-01-15"⟩

def c8files : String → Option (List Record) := fun k =>
  if k = "heart_rate_metrics_2024-01-15.parquet" then some [c8rec] else none

def c8wrec : Record := ⟨"device_a", "u1", "2024-01-15T10:00:00+00:00", 64, "2024-01-15"⟩

def c8wfiles : String → Option (List Record) := fun k =>
  if k = "heart_rate_metrics_2024-01-15.parquet" then some [c8wrec] else none

theorem c8wfiles_wf : storeWF c8wfiles := by
  intro k rows h
  unfold c8wfiles at h
  split_ifs at h with hk
  cases h
  intro r hr
  rw [List.mem_singleton] at hr
  subst hr
  subst hk
  exact ⟨⟨⟨2024, 1, 15⟩, 10, 0, 0, some 0⟩, rfl, rfl, rfl⟩

def c9filesA : String → Option (List Record) := fun k =>
  if k = "heart_rate_metrics_2024-01-15.parquet" then some [c3rec1] else none

def c9filesB : String → Option (List Record) := fun k =>
  if k = "heart_rate_metrics_2024-01-15.parquet" then some [c3rec1] else none

def c10s : StoreState := ⟨[], fun _ => none⟩

/-- C1 (amended).  The spec claims each bucket's `heart_rate` is the mean of
all readings of the winning device in that minute.  In the code the
`group_by(["minute_bucket", "user_id"]).first()` step keeps a single row per
bucket before the mean is taken, so every returned `heart_rate` is the
2-decimal rounding of one single reading (the first surviving row), not the
mean of all winning-device readings. -/
theorem claim_C1_bucket_value_is_single_reading (u s e : String)
    (dev : Option String) (files : String → Option (List Record))
    (outs : List OutRow) (h : queryMetrics u s e dev files = .ok outs) :
    ∀ o ∈ outs, ∃ r : Record, ∃ m : Int,
      r ∈ queryCandidates u s e dev files ∧
      bucketMinute (zReplaceFirst r.timestamp) = some m ∧
      o.timestamp = formatMinute m ∧ o.device_id = r.device_id ∧
      o.heart_rate = round2 (r.heart_rate : ℚ) := by
  intro o ho
  obtain ⟨hrows, _, _⟩ := queryMetrics_ok_spec u s e dev files outs h
  obtain ⟨r, m, h1, h2, _, h4, h5, h6⟩ := hrows o ho
  exact ⟨r, m, h1, h2, h4, h5, h6⟩

/-- C1 witness: on the three-reading store the single output row is fully
explained by one candidate reading. -/
theorem claim_C1_witness :
    ∃ r : Record, ∃ m : Int,
      r ∈ queryCandidates "u1" "2024-01-15T10:00:00Z" "2024-01-15T10:01:00Z"
        none c1files ∧
      bucketMinute (zReplaceFirst r.timestamp) = some m ∧
      "2024-01-15T10:00:00Z" = formatMinute m ∧ "device_a" = r.device_id ∧
      (70 : ℚ) = round2 (r.heart_rate : ℚ) :=
  claim_C1_bucket_value_is_single_reading "u1" "2024-01-15T10:00:00Z"
    "2024-01-15T10:01:00Z" none c1files
    [⟨70, "device_a", "2024-01-15T10:00:00Z"⟩] (by decide)
    ⟨70, "device_a", "2024-01-15T10:00:00Z"⟩ (by simp)

/-- C1 counterexample: same-device readings 70, 72, 74 in one minute bucket
produce bucket value 70.00 (the first row), not the mean 72.00 the spec
promises. -/
theorem claim_C1_counterexample :
    queryMetrics "u1" "2024-01-15T10:00:00Z" "2024-01-15T10:01:00Z" none
      c1files = .ok [⟨70, "device_a", "2024-01-15T10:00:00Z"⟩] ∧
    round2 (listMean [70, 72, 74]) = 72 ∧ (70 : ℚ) ≠ 72 :=
  ⟨by decide, by decide, by decide⟩

/-- C2.  Every output row of `query_metrics` is built from a candidate row
whose device attains the minimum priority rank among all candidate rows of
that minute bucket, and reports that device's id and (rounded) value; rows
of strictly lower-priority devices in the bucket never contribute. -/
theorem claim_C2_lowest_priority_device_wins (u s e : String)
    (dev : Option String) (files : String → Option (List Record))
    (outs : List OutRow) (h : queryMetrics u s e dev files = .ok outs) :
    ∀ o ∈ outs, ∃ r : Record, ∃ m : Int,
      r ∈ queryCandidates u s e dev files ∧
      bucketMinute (zReplaceFirst r.timestamp) = some m ∧
      (∀ r2 ∈ queryCandidates u s e dev files, ∀ m2 : Int,
        bucketMinute (zReplaceFirst r2.timestamp) = some m2 → m2 = m →
        priorityOf r.device_id ≤ priorityOf r2.device_id) ∧
      o.timestamp = formatMinute m ∧ o.device_id = r.device_id ∧
      o.heart_rate = round2 (r.heart_rate : ℚ) := by
  intro o ho
  exact (queryMetrics_ok_spec u s e dev files outs h).1 o ho

/-- C2 witness: with `device_a` (rank 1) and `device_b` (rank 2) in the same
user minute, the single output row comes from a minimum-priority candidate
and reports `device_a` with its value 80. -/
theorem claim_C2_witness :
    ∃ r : Record, ∃ m : Int,
      r ∈ queryCandidates "u1" "2024-01-15T10:00:00Z" "2024-01-15T10:01:00Z"
        none c2files ∧
      bucketMinute (zReplaceFirst r.timestamp) = some m ∧
      (∀ r2 ∈ queryCandidates "u1" "2024-01-15T10:00:00Z"
          "2024-01-15T10:01:00Z" none c2files, ∀ m2 : Int,
        bucketMinute (zReplaceFirst r2.timestamp) = some m2 → m2 = m →
        priorityOf r.device_id ≤ priorityOf r2.device_id) ∧
      "2024-01-15T10:00:00Z" = formatMinute m ∧ "device_a" = r.device_id ∧
      (80 : ℚ) = round2 (r.heart_rate : ℚ) :=
  claim_C2_lowest_priority_device_wins "u1" "2024-01-15T10:00:00Z"
    "2024-01-15T10:01:00Z" none c2files
    [⟨80, "device_a", "2024-01-15T10:00:00Z"⟩] (by decide)
    ⟨80, "device_a", "2024-01-15T10:00:00Z"⟩ (by simp)

set_option maxRecDepth 40000 in
/-- C3 (code bug).  A batch of 201 valid readings into an empty store is
fully accepted (201 accepted, 0 rejected) and triggers a flush, yet the
`deque(maxlen = 2 * BATCH_SIZE)` buffer silently evicts the first reading
(user `u0`): only the 200 `u1` rows reach the partition and the buffer is
empty, so a buffered reading was lost — never flushed at all. -/
theorem claim_C3_buffer_overflow_loses_accepted_reading :
    (ingestBatch c3batch c3s0).1.1 = 201 ∧
    (ingestBatch c3batch c3s0).1.2 = 0 ∧
    (ingestBatch c3batch c3s0).2.buffer = [] ∧
    (ingestBatch c3batch c3s0).2.files c3key =
      some (List.replicate 200 c3rec1) ∧
    (∀ r ∈ List.replicate 200 c3rec1, r.user_id = "u1") :=
  ⟨by decide, by decide, by decide, by decide, by decide⟩

/-- C4 (code bug).  `_flush_buffer_unlocked` emits no rename at all for any
store (everything is read or an in-place write), and on a store with an
existing two-row partition its trace is exactly read-then-write to the same
live path; a write interrupted after one row leaves content that differs
from the pre-flush file, so the claimed write-to-new-identity-then-publish
protocol is absent. -/
theorem claim_C4_flush_writes_in_place_without_rename :
    (∀ s : StoreState, ∀ op ∈ flushOps s, isRename op = false) ∧
    flushOps c4state =
      [FsOp.read "heart_rate_metrics_2024-01-15.parquet",
       FsOp.write "heart_rate_metrics_2024-01-15.parquet" (c4old ++ [c4newrec])] ∧
    c4state.files "heart_rate_metrics_2024-01-15.parquet" = some c4old ∧
    (c4old ++ [c4newrec]).take 1 ≠ c4old :=
  ⟨flushOps_no_rename, by decide, by decide, by decide⟩

set_option maxRecDepth 80000 in
/-- C5 (code bug).  `accepted + rejected = total` does hold for every batch,
but the second half of the claim fails: a 250-reading batch is fully
accepted, yet after the forced flush the first reading (user `u5`) is
absent from the partition (only the 200 surviving `u6` rows were written)
and a matching query for `u5` returns no rows. -/
theorem claim_C5_counts_add_up_but_accepted_reading_unqueryable :
    (∀ rs : List RawReading, ∀ s : StoreState,
      (ingestBatch rs s).1.1 + (ingestBatch rs s).1.2 = rs.length) ∧
    (ingestBatch c5batch c5s0).1.1 = 250 ∧
    (ingestBatch c5batch c5s0).1.2 = 0 ∧
    (flush (ingestBatch c5batch c5s0).2).files
      "heart_rate_metrics_2024-01-15.parquet" =
      some (List.replicate 200 c5rec6) ∧
    queryMetrics "u5" "2024-01-15T00:00:00Z" "2024-01-15T23:59:59Z" none
      (flush (ingestBatch c5batch c5s0).2).files = .ok [] :=
  ⟨ingestBatch_total, by decide, by decide, by decide, by decide⟩

/-- C6.  `ingest_batch` counts exactly the malformed rows (those whose
record cannot be built: missing field or unparseable timestamp) as
rejected and the well-formed rows as accepted, never raising — it always
returns the counts — and hands exactly the well-formed rows' records to the
buffer: below the flush threshold the new buffer is the old one extended by
them. -/
theorem claim_C6_malformed_rejected_rest_accepted (rs : List RawReading)
    (s : StoreState) :
    (ingestBatch rs s).1.1 = rs.countP (fun r => (buildRecord r).isSome) ∧
    (ingestBatch rs s).1.2 = rs.countP (fun r => (buildRecord r).isNone) ∧
    (s.buffer.length + (rs.filterMap buildRecord).length < BATCH_SIZE →
      (ingestBatch rs s).2.buffer = s.buffer ++ rs.filterMap buildRecord) := by
  obtain ⟨h1, h2⟩ := ingestBatch_counts rs s
  exact ⟨h1, h2, fun h => ingestBatch_buffer_small rs s h⟩

/-- C6 witness: a batch of one bad-timestamp row, one good row and one
missing-field row yields 1 accepted, 2 rejected, and buffers exactly the
good row's record. -/
theorem claim_C6_witness :
    (ingestBatch c6batch c6s0).1.1 = 1 ∧
    (ingestBatch c6batch c6s0).1.2 = 2 ∧
    (ingestBatch c6batch c6s0).2.buffer = [c6rec] := by
  obtain ⟨h1, h2, h3⟩ := claim_C6_malformed_rejected_rest_accepted c6batch c6s0
  exact ⟨h1.trans (by decide), h2.trans (by decide),
    (h3 (by decide)).trans (by decide)⟩

/-- C7 (amended).  Ok-results of `query_metrics` have pairwise-distinct
timestamps and are sorted ascending (byte-wise) by timestamp; every
timestamp is the chrono rendering of its minute bucket (minute-aligned,
seconds `00`), and it has the `YYYY-MM-DDTHH:MM:SSZ` shape whenever the
bucket's year lies in 0..9999 — outside that range (reachable via offsets
from year 9999) chrono emits a signed year of more digits. -/
theorem claim_C7_sorted_unique_minute_formatted (u s e : String)
    (dev : Option String) (files : String → Option (List Record))
    (outs : List OutRow) (h : queryMetrics u s e dev files = .ok outs) :
    (outs.map (fun o => o.timestamp)).Nodup ∧
    outs.Pairwise (fun a b => strLe a.timestamp b.timestamp = true) ∧
    ∀ o ∈ outs, ∃ m : Int, o.timestamp = formatMinute m ∧
      ((0 ≤ (civilFromDays (m / 1440)).year ∧
          (civilFromDays (m / 1440)).year ≤ 9999) →
        isMinuteShape o.timestamp = true) := by
  obtain ⟨hrows, hnodup, hsorted⟩ := queryMetrics_ok_spec u s e dev files outs h
  refine ⟨hnodup, hsorted, ?_⟩
  intro o ho
  obtain ⟨r, m, _, _, _, hts, _, _⟩ := hrows o ho
  refine ⟨m, hts, fun hy => ?_⟩
  rw [hts]
  exact isMinuteShape_formatMinute m hy

/-- C7 witness: on the three-reading store the ordering, uniqueness and
shape facts hold for the concrete result. -/
theorem claim_C7_witness :
    ([(⟨70, "device_a", "2024-01-15T10:00:00Z"⟩ : OutRow)].map
      (fun o => o.timestamp)).Nodup ∧
    [(⟨70, "device_a", "2024-01-15T10:00:00Z"⟩ : OutRow)].Pairwise
      (fun a b => strLe a.timestamp b.timestamp = true) ∧
    ∀ o ∈ [(⟨70, "device_a", "2024-01-15T10:00:00Z"⟩ : OutRow)],
      ∃ m : Int, o.timestamp = formatMinute m ∧
      ((0 ≤ (civilFromDays (m / 1440)).year ∧
          (civilFromDays (m / 1440)).year ≤ 9999) →
        isMinuteShape o.timestamp = true) :=
  claim_C7_sorted_unique_minute_formatted "u1" "2024-01-15T10:00:00Z"
    "2024-01-15T10:01:00Z" none c1files
    [⟨70, "device_a", "2024-01-15T10:00:00Z"⟩] (by decide)

/-- C7 counterexample: a stored reading at `9999-12-31T23:30:00-01:00`
(UTC year 10000) is returned with timestamp `+10000-01-01T00:30:00Z`,
which is not of the `YYYY-MM-DDTHH:MM:SSZ` shape. -/
theorem claim_C7_counterexample :
    queryMetrics "u1" "9999-12-31T00:00:00Z" "9999-12-31T23:59:59Z" none
      c7files = .ok [⟨77, "device_a", "+10000-01-01T00:30:00Z"⟩] ∧
    isMinuteShape "+10000-01-01T00:30:00Z" = false :=
  ⟨by decide, by decide⟩

/-- C8 (amended).  For a well-formed store (each record under the partition
of its own timestamp's date), a stored reading is a candidate of
`query_metrics` iff it is in the store, matches the user and the device
filter, and its RAW timestamp string lies byte-wise between the RAW query
bounds — the comparison applies no `Z`/offset normalization to the stored
strings (only the bounds' date prefix is parsed, for partition pruning). -/
theorem claim_C8_candidate_iff_raw_string_window (u s e : String)
    (dev : Option String) (files : String → Option (List Record))
    (hwf : storeWF files) (sdt edt : PyDateTime)
    (hs : parseIso (zReplaceAll s) = some sdt)
    (he : parseIso (zReplaceAll e) = some edt) (r : Record) :
    r ∈ queryCandidates u s e dev files ↔
      ((∃ rows, files (partitionFile r.date) = some rows ∧ r ∈ rows) ∧
        r.user_id = u ∧ devPass dev r = true ∧
        strLe s r.timestamp = true ∧ strLe r.timestamp e = true) :=
  queryCandidates_mem_iff u s e dev files hwf sdt edt hs he r

/-- C8 witness: the characterisation instantiated on a one-record
well-formed store. -/
theorem claim_C8_witness :
    c8wrec ∈ queryCandidates "u1" "2024-01-15T10:00:00Z"
        "2024-01-15T10:01:00Z" none c8wfiles ↔
      ((∃ rows, c8wfiles (partitionFile c8wrec.date) = some rows ∧
          c8wrec ∈ rows) ∧
        c8wrec.user_id = "u1" ∧ devPass none c8wrec = true ∧
        strLe "2024-01-15T10:00:00Z" c8wrec.timestamp = true ∧
        strLe c8wrec.timestamp "2024-01-15T10:01:00Z" = true) :=
  claim_C8_candidate_iff_raw_string_window "u1" "2024-01-15T10:00:00Z"
    "2024-01-15T10:01:00Z" none c8wfiles c8wfiles_wf _ _ rfl rfl c8wrec

/-- C8 counterexample: the stored timestamp `...10:00:30Z` and the query
end `...10:00:30+00:00` denote the same instant (equal strptime UTC
seconds), yet the stored reading is excluded from the candidate set: the
raw byte-wise comparison sees `'Z' > '+'`, no normalization is applied. -/
theorem claim_C8_counterexample :
    (parseIsoTz (zReplaceFirst "2024-01-15T10:00:30Z")).map
        (fun x => utcSeconds x.1 x.2.1 x.2.2.1 x.2.2.2.1 x.2.2.2.2) =
      (parseIsoTz (zReplaceFirst "2024-01-15T10:00:30+00:00")).map
        (fun x => utcSeconds x.1 x.2.1 x.2.2.1 x.2.2.2.1 x.2.2.2.2) ∧
    strLe "2024-01-15T10:00:30Z" "2024-01-15T10:00:30+00:00" = false ∧
    c8rec ∈ (c8files "heart_rate_metrics_2024-01-15.parquet").getD [] ∧
    c8rec.user_id = "u1" ∧
    queryCandidates "u1" "2024-01-15T10:00:00Z" "2024-01-15T10:00:30+00:00"
      none c8files = [] :=
  ⟨by decide, by decide, by decide, by decide, by decide⟩

/-- C9.  `query_metrics` is a pure function of its arguments and the
partition-file map: two calls with identical user, bounds and device
filter over pointwise-identical files (no intervening writes) return
identical results — buckets, values, device ids and order included. -/
theorem claim_C9_query_deterministic (u s e : String) (dev : Option String)
    (files1 files2 : String → Option (List Record))
    (h : ∀ k, files1 k = files2 k) :
    queryMetrics u s e dev files1 = queryMetrics u s e dev files2 := by
  have heq : files1 = files2 := funext h
  rw [heq]

/-- C9 witness: two syntactically distinct but pointwise-equal stores give
the same result. -/
theorem claim_C9_witness :
    queryMetrics "u1" "2024-01-15T10:00:00Z" "2024-01-15T10:01:00Z" none
        c9filesA =
      queryMetrics "u1" "2024-01-15T10:00:00Z" "2024-01-15T10:01:00Z" none
        c9filesB :=
  claim_C9_query_deterministic "u1" "2024-01-15T10:00:00Z"
    "2024-01-15T10:01:00Z" none c9filesA c9filesB (fun _ => rfl)

/-- C10.  When the timestamp does not parse (after replacing `Z` with
`+00:00`), `ingest_metric` raises before touching any state: the call
returns the `invalidTimestamp` error and the observable state is exactly
the pre-call state — buffer and partition files unchanged. -/
theorem claim_C10_invalid_timestamp_rejected_before_mutation
    (device_id user_id ts : String) (hr : Int) (s : StoreState)
    (h : parseIso (zReplaceAll ts) = none) :
    ingestMetric device_id user_id ts hr s = .error .invalidTimestamp ∧
    stateAfterIngest device_id user_id ts hr s = s := by
  have herr : ingestMetric device_id user_id ts hr s =
      .error .invalidTimestamp := by
    unfold ingestMetric
    rw [h]
  refine ⟨herr, ?_⟩
  unfold stateAfterIngest
  rw [herr]

/-- C10 witness: month 13 does not parse; the call errors and the state is
untouched. -/
theorem claim_C10_witness :
    ingestMetric "device_a" "u1" "2024-13-01T00:00:00Z" 70 c10s =
      .error .invalidTimestamp ∧
    stateAfterIngest "device_a" "u1" "2024-13-01T00:00:00Z" 70 c10s = c10s :=
  claim_C10_invalid_timestamp_rejected_before_mutation "device_a" "u1"
    "2024-13-01T00:00:00Z" 70 c10s (by decide)

end HeartRate
